import Mathlib

/-!
Verification development for the `web-term` backend (`src/backend/main.py`).

The backend is a single-file agent loop: a websocket endpoint owns an
`AgentSession` whose `handle_message` runs a bounded turn loop.  Each turn
requests a streamed chat completion, aggregates streamed text deltas and
tool-call fragments (keyed by a stable integer index), appends assistant and
tool messages to the transcript, dispatches tool calls by name, and emits
structured events to the client.

This file is a shallow embedding of that code.  External collaborators are
made explicit:
* the model stream is an oracle `llm : Nat -> RoundOutcome` giving, for each
  completion request (numbered in order), either a raised exception or the
  list of streamed chunks;
* `json.loads` followed by dict lookups is an oracle
  `jloads : String -> Option Args` (`none` models the exception path of the
  bare `except:` around `json.loads`, i.e. argument text that does not parse
  to a structured record);
* the four tool bodies are an oracle `ToolEnv` of pure result functions
  (their internals are out of the loop's scope);
* `os.urandom(4).hex()` is an oracle `tid : Nat -> String`;
* the filesystem touched by `read_file`/`write_file` is an explicit `FS`
  state, with `os.path.dirname` / `os.makedirs` modelled from their
  documented POSIX behaviour.
-/

/-- A single quote character as a string (used when rendering Python
f-strings that contain quotes). -/
def squo : String := (Char.ofNat 39).toString

/-- Python truthiness of an optional string: `None` and `""` are falsy. -/
def truthy : Option String → Bool
  | none => false
  | some s => s ≠ ""

/-- Python `str(x)` where `x` is an optional string: `None` renders as
`"None"` (used by `f"evt-{call_id}"` when the stream never supplied an id). -/
def pyOptStr : Option String → String
  | some s => s
  | none => "None"

/-- One streamed tool-call fragment (`delta.tool_calls[k]`): a stable index
identifying the in-progress call, plus optional id / name / arguments
pieces. -/
structure ToolCallDelta where
  index : Nat
  id : Option String
  name : Option String
  arguments : Option String
deriving Repr, DecidableEq

/-- One streamed chunk's delta: optional text content and the (possibly
empty) list of tool-call fragments.  A `None` `delta.tool_calls` behaves
exactly like an empty list (both are falsy and contribute no fragments), so
it is modelled as `[]`. -/
structure Chunk where
  content : Option String
  tool_calls : List ToolCallDelta
deriving Repr, DecidableEq

/-- The per-index accumulator ``{"id": ..., "name": ..., "args": ...}``
built by the aggregation loop. -/
structure ToolCallAcc where
  id : Option String
  name : Option String
  args : String
deriving Repr, DecidableEq

/-- The aggregation dict `tool_calls`, as an insertion-ordered association
list from index to accumulator (Python dicts preserve insertion order). -/
abbrev ToolCallMap := List (Nat × ToolCallAcc)

/-- Dict lookup `tool_calls[idx]` (as an option). -/
def mapLookup (m : ToolCallMap) (i : Nat) : Option ToolCallAcc :=
  match m.find? (fun p => p.1 == i) with
  | some p => some p.2
  | none => none

/-- Dict update `tool_calls[idx] = v` for a key already present. -/
def mapSet (m : ToolCallMap) (i : Nat) (v : ToolCallAcc) : ToolCallMap :=
  m.map (fun p => if p.1 == i then (i, v) else p)

/-- The two update lines of the aggregation loop:
`if tc.function.name: tool_calls[idx]["name"] = tc.function.name` and
`if tc.function.arguments: tool_calls[idx]["args"] += tc.function.arguments`. -/
def updateAcc (e : ToolCallAcc) (tc : ToolCallDelta) : ToolCallAcc :=
  let e1 := if truthy tc.name then { e with name := tc.name } else e
  if truthy tc.arguments then { e1 with args := e1.args ++ tc.arguments.getD "" } else e1

/-- Processing of one tool-call fragment by the aggregation loop
(`main.py` lines 224-229): on first sight of an index the entry is created
as ``{"id": tc.id, "name": tc.function.name, "args": ""}`` and then the two
conditional updates run; on later sights only the updates run.  Note the id
is only ever taken from the first fragment. -/
def applyDelta (m : ToolCallMap) (tc : ToolCallDelta) : ToolCallMap :=
  match mapLookup m tc.index with
  | none => m ++ [(tc.index, updateAcc ⟨tc.id, tc.name, ""⟩ tc)]
  | some e => mapSet m tc.index (updateAcc e tc)

/-- Messages of the conversation transcript `self.messages`.  An assistant
message appended for accumulated text only (line 232) is `assistantText`;
the assistant message carrying tool calls (lines 247-251) is
`assistantCalls` with `content = current_thought_content or None`. -/
structure ToolCallMsg where
  id : Option String
  name : Option String
  arguments : String
deriving Repr, DecidableEq

inductive Message where
  | system (content : String)
  | userText (content : String)
  | userImages (content : String) (images : List String)
  | assistantText (content : String)
  | assistantCalls (content : Option String) (tool_calls : List ToolCallMsg)
  | tool (tool_call_id : Option String) (content : String)
deriving Repr, DecidableEq

/-- Events sent over the websocket (`send_json` payloads), one constructor
per send site shape.  `thought` events carry an id only inside the stream
loop; the session-start and LLM-error thoughts carry none. -/
inductive Event where
  | thought (id : Option String) (content : String)
  | command (id : String) (command : String) (output : String)
  | fileReadStart (id : String) (path : String)
  | fileReadResult (id : String) (path : String) (lines : Nat) (content_preview : String)
  | fileWriteStart (id : String) (path : String) (content_preview : String)
  | fileWriteResult (id : String) (path : String) (output : String)
  | fileContent (path : Option String) (content : String)
deriving Repr, DecidableEq

/-- A parsed argument record, as consumed through `args.get(key, default)`
with string values. -/
abbrev Args := List (String × String)

/-- `args.get(key, default)`. -/
def argGet (args : Args) (key default_ : String) : String :=
  match args.find? (fun kv => kv.1 == key) with
  | some kv => kv.2
  | none => default_

/-- `json.loads` wrapped in the bare `try`/`except` of lines 257-260:
a parse failure degrades to the empty record. -/
def parseArgs (jloads : String → Option Args) (s : String) : Args :=
  (jloads s).getD []

/-- An entry of `TOOL_DEFINITIONS`: the function name, description and
parameter schema (parameter names plus the required subset). -/
structure ToolDef where
  name : String
  description : String
  paramNames : List String
  required : List String
deriving Repr, DecidableEq

/-- The static tool registry `TOOL_DEFINITIONS` (`main.py` lines 92-144). -/
def TOOL_DEFINITIONS : List ToolDef :=
  [⟨"read_file", "Read the contents of a file.", ["path"], ["path"]⟩,
   ⟨"write_file", "Write content to a file. Overwrites existing content.",
      ["path", "content"], ["path", "content"]⟩,
   ⟨"run_terminal_command", "Run a shell command.", ["command"], ["command"]⟩,
   ⟨"web_search", "Search the web for documentation, solutions, or libraries.",
      ["query"], ["query"]⟩]

/-- The chat-mode allowlist (line 195):
`[t for t in TOOL_DEFINITIONS if t["function"]["name"] in ["read_file", "web_search"]]`. -/
def chatAllowedTools : List ToolDef :=
  TOOL_DEFINITIONS.filter (fun t => ["read_file", "web_search"].contains t.name)

/-- Oracle for the four tool executors (their bodies are I/O; the loop only
consumes their returned result strings). -/
structure ToolEnv where
  runCmd : String → String
  readF : String → String
  writeF : String → String → String
  search : String → String

/-- Outcome of one `client.chat.completions.create(..., stream=True)` call:
either the exception branch of lines 206-208 or the list of streamed
chunks. -/
inductive RoundOutcome where
  | failure (err : String)
  | stream (chunks : List Chunk)

/-- The session-level oracles for one `handle_message` call. -/
structure SessionCtx where
  env : ToolEnv
  jloads : String → Option Args
  llm : Nat → RoundOutcome
  tid : Nat → String

/-- Python `len(content.splitlines())` restricted to `\n` line breaks. -/
def pyLineCount (s : String) : Nat :=
  if s = "" then 0
  else
    let parts := s.splitOn "\n"
    if s.endsWith "\n" then parts.length - 1 else parts.length

/-- Dispatch of one accumulated tool call (`main.py` lines 253-302): the
events sent for it, in order, and the `output` string appended as the tool
result.  An unrecognised name sends nothing and yields the fixed not-found
text. -/
def execCall (env : ToolEnv) (jloads : String → Option Args) (tc : ToolCallAcc) :
    List Event × String :=
  let args := parseArgs jloads tc.args
  let event_id := "evt-" ++ pyOptStr tc.id
  if tc.name == some "run_terminal_command" then
    let cmd := argGet args "command" ""
    let output := env.runCmd cmd
    ([Event.command event_id cmd "", Event.command event_id cmd output], output)
  else if tc.name == some "read_file" then
    let path := argGet args "path" ""
    let content := env.readF path
    ([Event.fileReadStart event_id path,
      Event.fileReadResult event_id path (pyLineCount content) (content.take 500)], content)
  else if tc.name == some "write_file" then
    let path := argGet args "path" ""
    let content := argGet args "content" ""
    let output := env.writeF path content
    ([Event.fileWriteStart event_id path (content.take 200 ++ "..."),
      Event.fileWriteResult event_id path output], output)
  else if tc.name == some "web_search" then
    let query := argGet args "query" ""
    let label := "web_search " ++ squo ++ query ++ squo
    let output := env.search query
    ([Event.command event_id label "Searching...", Event.command event_id label output], output)
  else
    ([], "Error: Tool not found.")

/-- State threaded through one `handle_message` call: the transcript, the
events sent so far, the tools argument of each completion request issued so
far (`None` when the allowlist is empty, per `allowed_tools if allowed_tools
else None`), and the trace of dispatched function names. -/
structure LoopState where
  messages : List Message
  events : List Event
  requests : List (Option (List ToolDef))
  dispatches : List (Option String)
deriving Repr

/-- Accumulator of the chunk-consumption loop (lines 214-229): the running
`current_thought_content`, the thought events sent so far, and the
aggregation dict. -/
structure StreamAcc where
  thought : String
  events : List Event
  calls : ToolCallMap
deriving Repr

/-- Consumption of one streamed chunk: a truthy content fragment extends the
running text and re-sends the cumulative snapshot under the turn's thought
id; tool-call fragments feed the aggregation dict. -/
def processChunk (tid : String) (a : StreamAcc) (c : Chunk) : StreamAcc :=
  let a :=
    match c.content with
    | some s =>
        if s = "" then a
        else { a with
                thought := a.thought ++ s,
                events := a.events ++ [Event.thought (some tid) (a.thought ++ s)] }
    | none => a
  { a with calls := c.tool_calls.foldl applyDelta a.calls }

/-- The whole stream-consumption loop over all chunks. -/
def processStream (tid : String) (chunks : List Chunk) : StreamAcc :=
  chunks.foldl (processChunk tid) ⟨"", [], []⟩

/-- `sorted(tool_calls.keys())`. -/
def sortedKeys (m : ToolCallMap) : List Nat :=
  List.insertionSort (· ≤ ·) (m.map Prod.fst)

/-- The accumulated calls in ascending index order, as iterated by both
`for idx in sorted(tool_calls.keys())` loops. -/
def sortedEntries (m : ToolCallMap) : List (Nat × ToolCallAcc) :=
  (sortedKeys m).filterMap (fun i => (mapLookup m i).map (fun v => (i, v)))

/-- The assistant-message entry built for one accumulated call
(lines 239-245; the constant `"type": "function"` field is omitted). -/
def mkToolCallMsg (p : Nat × ToolCallAcc) : ToolCallMsg :=
  ⟨p.2.id, p.2.name, p.2.args⟩

/-- One iteration of the tool-execution loop (lines 253-304): send the
call's events, record the dispatched name, append the tool-result message. -/
def execStep (env : ToolEnv) (jloads : String → Option Args)
    (st : LoopState) (p : Nat × ToolCallAcc) : LoopState :=
  let r := execCall env jloads p.2
  { st with
    events := st.events ++ r.1,
    dispatches := st.dispatches ++ [p.2.name],
    messages := st.messages ++ [Message.tool p.2.id r.2] }

/-- The tool-execution loop over the sorted calls. -/
def execPhase (env : ToolEnv) (jloads : String → Option Args)
    (calls : List (Nat × ToolCallAcc)) (st : LoopState) : LoopState :=
  calls.foldl (execStep env jloads) st

/-- The bounded turn loop `for _ in range(10)` (lines 198-304), with the
remaining iteration budget as fuel.  Each iteration first issues a
completion request (recording its tools argument); a create-exception sends
the diagnostic thought and returns; otherwise the stream is consumed, any
accumulated text is appended, and either the loop breaks (no tool calls) or
the assistant tool-call message is appended, the calls are executed in
ascending index order, and the loop continues. -/
def turnLoop (ctx : SessionCtx) (allowed : List ToolDef) : Nat → LoopState → LoopState
  | 0, st => st
  | Nat.succ fuel, st =>
    let n := st.requests.length
    let st1 : LoopState :=
      { st with requests := st.requests ++ [if allowed.isEmpty then none else some allowed] }
    match ctx.llm n with
    | RoundOutcome.failure e =>
        { st1 with events := st1.events ++ [Event.thought none ("LLM Error: " ++ e)] }
    | RoundOutcome.stream chunks =>
        let a := processStream ("thought-" ++ ctx.tid n) chunks
        let st2 := { st1 with events := st1.events ++ a.events }
        let st3 :=
          if a.thought = "" then st2
          else { st2 with messages := st2.messages ++ [Message.assistantText a.thought] }
        if a.calls.isEmpty then st3
        else
          let calls := sortedEntries a.calls
          let st4 :=
            { st3 with
              messages := st3.messages ++
                [Message.assistantCalls (if a.thought = "" then none else some a.thought)
                  (calls.map mkToolCallMsg)] }
          turnLoop ctx allowed fuel (execPhase ctx.env ctx.jloads calls st4)

/-- `AgentSession.handle_message` (lines 179-304): append the user message
(multimodal when a non-empty image list is given), compute the mode's
allowlist, and run the turn loop with fuel 10. -/
def handle_message (ctx : SessionCtx) (mode : String) (messages : List Message)
    (user_content : String) (images : Option (List String)) : LoopState :=
  let messages :=
    match images with
    | some imgs =>
        if imgs.length > 0 then messages ++ [Message.userImages user_content imgs]
        else messages ++ [Message.userText user_content]
    | none => messages ++ [Message.userText user_content]
  let allowed := if mode == "chat" then chatAllowedTools else TOOL_DEFINITIONS
  turnLoop ctx allowed 10 ⟨messages, [], [], []⟩

/-- The system prompt `PROMPT_AGENT` with `{structure}` substituted
(`prompt.format(structure=structure)`). -/
def PROMPT_AGENT (structureText : String) : String :=
  "\nYou are a Senior Software Engineer. Act autonomously. Plan first.\nYou can read files, write files, run terminal commands, and search the web.\nIf you see an image, analyze it to understand the bug or error.\nCurrent Structure:\n"
    ++ structureText ++ "\n"

/-- The system prompt `PROMPT_CHAT` with `{structure}` substituted. -/
def PROMPT_CHAT (structureText : String) : String :=
  "\nYou are a Code Assistant. READ-ONLY mode.\nCurrent Structure:\n" ++ structureText ++ "\n"

/-- The session-started thought content
`f"Session started in {mode} mode. I'm ready."` (the quote in `I'm` is
rendered through `squo`). -/
def sessionStartMsg (mode : String) : String :=
  "Session started in " ++ mode ++ " mode. I" ++ squo ++ "m ready."

/-- The mutable per-connection session fields of `AgentSession`
(`self.mode`, `self.messages`). -/
structure SessionState where
  mode : String
  messages : List Message
deriving Repr

/-- `AgentSession.initialize(mode)` (lines 168-177): set the mode, seed the
transcript with the rendered system prompt (over the directory-structure
snapshot `structureText`, an external input), and send the session-started
thought.  Returns the new session fields and the events sent. -/
def initSession (structureText : String) (mode : String) : SessionState × List Event :=
  let prompt := if mode == "agent" then PROMPT_AGENT structureText else PROMPT_CHAT structureText
  (⟨mode, [Message.system prompt]⟩,
   [Event.thought none (sessionStartMsg mode)])

/-- One parsed inbound client payload (absent JSON keys are `none`, matching
`message.get(...)`). -/
structure Inbound where
  type : Option String
  mode : Option String
  content : Option String
  images : Option (List String)
  path : Option String
deriving Repr, DecidableEq

/-- The per-connection endpoint state: the `initialized` flag of
`websocket_endpoint` plus the session fields (`AgentSession.__init__` sets
`mode = "agent"`, `messages = []`). -/
structure EndpointState where
  initialized : Bool
  session : SessionState
deriving Repr

/-- The fresh state of a new connection. -/
def initialEndpointState : EndpointState := ⟨false, ⟨"agent", []⟩⟩

/-- The oracles available while the endpoint processes one inbound payload:
the session oracles plus the `get_project_structure()` snapshot taken if
this payload initializes the session. -/
structure StepCtx where
  env : ToolEnv
  jloads : String → Option Args
  llm : Nat → RoundOutcome
  tid : Nat → String
  structureText : String

/-- The result of `read_file(None)` in the `get_file_content` branch when
the payload has no `path` key: `os.path.exists(None)` raises `TypeError`,
which the tool converts to its descriptive error string. -/
def readFileNoneErr : String :=
  "Error reading file: stat: path should be string, bytes, os.PathLike or integer, not NoneType"

/-- The truthiness test `message.get("content") or message.get("images")`
(line 330). -/
def wantsFirstTurn (msg : Inbound) : Bool :=
  truthy msg.content ||
    (match msg.images with
     | some imgs => !imgs.isEmpty
     | none => false)

/-- One iteration of the `websocket_endpoint` receive loop (lines 312-334)
on an already-parsed payload: the `get_file_content` branch answers
synchronously and bypasses the session; an uninitialized session is
initialized from `message.get("mode", "agent")` and, if the payload carries
content or images, the first turn runs; otherwise only a `user_message`
payload triggers a turn.  Returns the new state, the events sent, and the
tools argument of each completion request issued. -/
def stepEndpoint (ctx : StepCtx) (st : EndpointState) (msg : Inbound) :
    EndpointState × List Event × List (Option (List ToolDef)) :=
  if msg.type == some "get_file_content" then
    let content :=
      match msg.path with
      | some p => ctx.env.readF p
      | none => readFileNoneErr
    (st, [Event.fileContent msg.path content], [])
  else if !st.initialized then
    let r := initSession ctx.structureText (msg.mode.getD "agent")
    if wantsFirstTurn msg then
      let ls := handle_message ⟨ctx.env, ctx.jloads, ctx.llm, ctx.tid⟩ r.1.mode r.1.messages
        (msg.content.getD "") (some (msg.images.getD []))
      (⟨true, ⟨r.1.mode, ls.messages⟩⟩, r.2 ++ ls.events, ls.requests)
    else
      (⟨true, r.1⟩, r.2, [])
  else
    if msg.type == some "user_message" then
      let ls := handle_message ⟨ctx.env, ctx.jloads, ctx.llm, ctx.tid⟩ st.session.mode
        st.session.messages (msg.content.getD "") (some (msg.images.getD []))
      (⟨true, ⟨st.session.mode, ls.messages⟩⟩, ls.events, ls.requests)
    else
      (st, [], [])

/-- The endpoint receive loop over a whole connection: a list of inbound
payloads, each with its own external oracles.  Accumulates all events sent
and all completion-request tools arguments. -/
def runEndpoint (st : EndpointState) :
    List (StepCtx × Inbound) → EndpointState × List Event × List (Option (List ToolDef))
  | [] => (st, [], [])
  | (ctx, msg) :: rest =>
    let r := stepEndpoint ctx st msg
    let r2 := runEndpoint r.1 rest
    (r2.1, r.2.1 ++ r2.2.1, r.2.2 ++ r2.2.2)

/-! ### Filesystem model for the `read_file` / `write_file` executors

The two file tools are straight-line I/O over the OS; they are embedded
over an explicit filesystem state: a set of existing directories and a map
from file path to content.  `os.path.dirname` and `os.makedirs` are
modelled from their documented POSIX behaviour; in particular
`os.makedirs("")` raises `FileNotFoundError` (`[Errno 2]`) even with
`exist_ok=True`. -/

structure FS where
  dirs : List String
  files : List (String × String)
deriving Repr, DecidableEq

def lookupFile (fs : FS) (path : String) : Option String :=
  match fs.files.find? (fun kv => kv.1 == path) with
  | some kv => some kv.2
  | none => none

def isFile (fs : FS) (path : String) : Bool :=
  (lookupFile fs path).isSome

/-- Chars of `p` up to and including the last slash, or `none` when `p`
contains no slash. -/
def takeToLastSlash : List Char → Option (List Char)
  | [] => none
  | c :: rest =>
    match takeToLastSlash rest with
    | some tail => some (c :: tail)
    | none => if c = '/' then some [c] else none

/-- `os.path.dirname` (posixpath): everything before the last slash, with
trailing slashes stripped unless the head is all slashes; `""` when the
path has no directory component. -/
def pyDirname (p : String) : String :=
  match takeToLastSlash p.toList with
  | none => ""
  | some head =>
    if head.all (fun c => c = '/') then String.mk head
    else String.mk ((head.reverse.dropWhile (fun c => c = '/')).reverse)

/-- Splitting a character list on a separator (the semantics of Python's
`str.split(sep)`, e.g. `"a/b" -> ["a", "b"]`, `"a//b" -> ["a", "", "b"]`). -/
def splitOnChar (sep : Char) : List Char → List (List Char)
  | [] => [[]]
  | c :: rest =>
    match splitOnChar sep rest with
    | [] => [[]]
    | grp :: grps => if c = sep then [] :: grp :: grps else (c :: grp) :: grps

/-- The chain of directories `os.makedirs` creates for `d`: each
slash-separated prefix of `d`, shortest first. -/
def ancestorDirs (d : String) : List String :=
  let comps := (splitOnChar '/' d.toList).map String.mk
  (List.range comps.length).map (fun k => String.intercalate "/" (comps.take (k + 1)))

/-- `os.makedirs(d, exist_ok=True)` over the model: an empty name raises
`FileNotFoundError`; a path component that exists as a regular file raises
`FileExistsError`; otherwise every missing prefix directory is created. -/
def makedirs (fs : FS) (d : String) : Except String FS :=
  if d = "" then
    Except.error ("[Errno 2] No such file or directory: " ++ squo ++ squo)
  else if (ancestorDirs d).any (fun a => isFile fs a) then
    Except.error ("[Errno 17] File exists: " ++ squo ++ d ++ squo)
  else
    Except.ok { fs with dirs := fs.dirs ++ (ancestorDirs d).filter (fun a => !fs.dirs.contains a) }

/-- Overwriting file creation (`open(path, "w")` plus the write). -/
def setFile (fs : FS) (path content : String) : FS :=
  { fs with files := (path, content) :: fs.files.filter (fun kv => !(kv.1 == path)) }

/-- The `write_file` tool (`main.py` lines 47-54): create intermediate
directories, then write; any raised exception is converted to the
descriptive error string and the filesystem effects of the failing step do
not happen (`open` on a directory path fails with `IsADirectoryError`). -/
def write_file (fs : FS) (path content : String) : String × FS :=
  match makedirs fs (pyDirname path) with
  | Except.error e => ("Error writing file: " ++ e, fs)
  | Except.ok fs1 =>
    if fs1.dirs.contains path then
      ("Error writing file: [Errno 21] Is a directory: " ++ squo ++ path ++ squo, fs1)
    else
      ("Successfully wrote to " ++ path, setFile fs1 path content)

/-- The `read_file` tool (`main.py` lines 38-45): a missing path yields the
not-found text, a directory path yields the converted `IsADirectoryError`
text, a file yields its content. -/
def read_file (fs : FS) (path : String) : String :=
  match lookupFile fs path with
  | some content => content
  | none =>
    if fs.dirs.contains path then
      "Error reading file: [Errno 21] Is a directory: " ++ squo ++ path ++ squo
    else
      "Error: File " ++ squo ++ path ++ squo ++ " not found."

/-! ### Transcript well-formedness (claim C1's invariant)

`chainOkAux expected ms` walks the transcript: after an assistant message
carrying tool calls, exactly the matching tool-result messages must follow,
with `tool_call_id`s equal to the calls' ids in the same order; a tool
message anywhere else is rejected. -/

def chainOkAux : List ToolCallMsg → List Message → Bool
  | [], [] => true
  | _ :: _, [] => false
  | [], Message.tool _ _ :: _ => false
  | [], Message.assistantCalls _ tcs :: rest => chainOkAux tcs rest
  | [], _ :: rest => chainOkAux [] rest
  | t :: ts, Message.tool cid _ :: rest => cid == t.id && chainOkAux ts rest
  | _ :: _, _ :: _ => false

/-- Well-formed transcript: every tool message sits in the block right
after an assistant tool-call message, matching it in ids, order and count. -/
def toolLinkOk (ms : List Message) : Bool :=
  chainOkAux [] ms

/-- Number of system messages in a transcript (for the initialization
idempotence claim). -/
def countSystem (ms : List Message) : Nat :=
  (ms.filter (fun m => match m with | Message.system _ => true | _ => false)).length

/-- A session-started thought event (the only event `AgentSession.initialize`
sends). -/
def isStartEvent (e : Event) : Prop :=
  ∃ m, e = Event.thought none (sessionStartMsg m)

/-! ### Characterization of the streaming aggregator (specification side)

The following functions state, directly over the flattened fragment
sequence, what the aggregation dict is claimed to contain per index.  They
are written from the specification's words ("id and name set on first
sight..."), to be compared with the fold over `applyDelta` taken from the
source. -/

/-- All tool-call fragments of a stream, in arrival order, forgetting chunk
boundaries. -/
def toolFrags (chunks : List Chunk) : List ToolCallDelta :=
  chunks.flatMap (fun c => c.tool_calls)

/-- The fragments belonging to index `i`, in order. -/
def fragsAt (frags : List ToolCallDelta) (i : Nat) : List ToolCallDelta :=
  frags.filter (fun tc => tc.index == i)

/-- The id the aggregator ends up with for index `i`: the id of the very
first fragment for `i` (later fragments never touch it). -/
def specId (frags : List ToolCallDelta) (i : Nat) : Option String :=
  match (fragsAt frags i).head? with
  | some tc => tc.id
  | none => none

/-- The name the aggregator ends up with for index `i`: the last truthy
name fragment, and otherwise the first fragment's (falsy) name. -/
def specName (frags : List ToolCallDelta) (i : Nat) : Option String :=
  match ((fragsAt frags i).filter (fun tc => truthy tc.name)).getLast? with
  | some tc => tc.name
  | none =>
    match (fragsAt frags i).head? with
    | some tc => tc.name
    | none => none

/-- The arguments the aggregator ends up with for index `i`: the in-order
concatenation of all truthy argument fragments. -/
def specArgs (frags : List ToolCallDelta) (i : Nat) : String :=
  ((fragsAt frags i).filter (fun tc => truthy tc.arguments)).foldl
    (fun s tc => s ++ tc.arguments.getD "") ""

/-! ### Concrete fixtures used by witnesses -/

/-- A concrete tool-executor oracle. -/
def wEnv : ToolEnv :=
  ⟨fun _ => "(No output)", fun _ => "line1\nline2", fun p _ => "Successfully wrote to " ++ p,
   fun _ => "No results found."⟩

/-- A concrete session context whose model immediately answers with plain
text and no tool calls. -/
def wCtxQuiet : SessionCtx :=
  ⟨wEnv, fun _ => none, fun _ => RoundOutcome.stream [⟨some "done", []⟩], fun _ => "aaaaaaaa"⟩

/-- A concrete session context whose model keeps requesting one `read_file`
call with unparsable arguments in every round. -/
def wCtxRead : SessionCtx :=
  ⟨wEnv, fun _ => none,
   fun _ => RoundOutcome.stream [⟨none, [⟨0, some "call_1", some "read_file", some "oops"⟩]⟩],
   fun _ => "aaaaaaaa"⟩

/-- A concrete chat-mode session context whose model always streams one
`read_file` call (so it only ever names tools from the chat allowlist). -/
def wCtxChat : SessionCtx :=
  ⟨wEnv, fun _ => some [("path", "README.md")],
   fun _ => RoundOutcome.stream [⟨some "look", [⟨0, some "call_9", some "read_file", some "x"⟩]⟩],
   fun _ => "bbbbbbbb"⟩

/-- A concrete endpoint-step context. -/
def wStep : StepCtx :=
  ⟨wEnv, fun _ => none, fun _ => RoundOutcome.stream [⟨some "done", []⟩], fun _ => "aaaaaaaa",
   "proj/\n  main.py"⟩

/-! ## Lemmas about the aggregation dict -/

theorem mapLookup_eq_none (m : ToolCallMap) (j : Nat) (h : mapLookup m j = none) :
    m.find? (fun p => p.1 == j) = none := by
  unfold mapLookup at h
  cases hf : m.find? (fun p => p.1 == j) with
  | none => rfl
  | some p => rw [hf] at h; exact Option.noConfusion h

theorem mapLookup_append_self (m : ToolCallMap) (j : Nat) (v : ToolCallAcc)
    (h : mapLookup m j = none) : mapLookup (m ++ [(j, v)]) j = some v := by
  unfold mapLookup
  rw [List.find?_append, mapLookup_eq_none m j h]
  simp

theorem mapLookup_append_ne (m : ToolCallMap) (i j : Nat) (v : ToolCallAcc) (h : i ≠ j) :
    mapLookup (m ++ [(j, v)]) i = mapLookup m i := by
  have hji : ((j : Nat) == i) = false := by
    rw [beq_eq_false_iff_ne]; exact fun hh => h hh.symm
  unfold mapLookup
  rw [List.find?_append]
  have h2 : List.find? (fun p => p.1 == i) [(j, v)] = none := by
    simp [List.find?, hji]
  rw [h2]
  cases m.find? (fun p => p.1 == i) <;> rfl

theorem mapSet_cons (p : Nat × ToolCallAcc) (rest : ToolCallMap) (j : Nat) (v : ToolCallAcc) :
    mapSet (p :: rest) j v = (if p.1 == j then (j, v) else p) :: mapSet rest j v :=
  rfl

theorem mapLookup_mapSet_self (m : ToolCallMap) (j : Nat) (v e : ToolCallAcc)
    (h : mapLookup m j = some e) : mapLookup (mapSet m j v) j = some v := by
  induction m with
  | nil => exact Option.noConfusion h
  | cons p rest ih =>
    rw [mapSet_cons]
    by_cases hp : (p.1 == j) = true
    · rw [if_pos hp]
      unfold mapLookup
      rw [@List.find?_cons_of_pos _ (fun q => q.1 == j) (j, v) (mapSet rest j v) (by simp)]
    · rw [if_neg hp]
      unfold mapLookup at h ⊢
      rw [@List.find?_cons_of_neg _ (fun q => q.1 == j) p rest hp] at h
      rw [@List.find?_cons_of_neg _ (fun q => q.1 == j) p (mapSet rest j v) hp]
      exact ih h

theorem mapLookup_mapSet_ne (m : ToolCallMap) (i j : Nat) (v : ToolCallAcc) (h : i ≠ j) :
    mapLookup (mapSet m j v) i = mapLookup m i := by
  have hji : ((j : Nat) == i) = false := by
    rw [beq_eq_false_iff_ne]; exact fun hh => h hh.symm
  induction m with
  | nil => rfl
  | cons p rest ih =>
    rw [mapSet_cons]
    by_cases hp : (p.1 == j) = true
    · rw [if_pos hp]
      have hpj : p.1 = j := by simpa using hp
      have hpi : (p.1 == i) = false := by rw [hpj]; exact hji
      unfold mapLookup
      rw [@List.find?_cons_of_neg _ (fun q => q.1 == i) (j, v) (mapSet rest j v) (by simp [hji]),
        @List.find?_cons_of_neg _ (fun q => q.1 == i) p rest (by simp [hpi])]
      exact ih
    · rw [if_neg hp]
      by_cases hpi : (p.1 == i) = true
      · unfold mapLookup
        rw [@List.find?_cons_of_pos _ (fun q => q.1 == i) p (mapSet rest j v) hpi,
          @List.find?_cons_of_pos _ (fun q => q.1 == i) p rest hpi]
      · unfold mapLookup
        rw [@List.find?_cons_of_neg _ (fun q => q.1 == i) p (mapSet rest j v) hpi,
          @List.find?_cons_of_neg _ (fun q => q.1 == i) p rest hpi]
        exact ih

theorem mapLookup_applyDelta_ne (m : ToolCallMap) (tc : ToolCallDelta) (i : Nat)
    (h : i ≠ tc.index) : mapLookup (applyDelta m tc) i = mapLookup m i := by
  unfold applyDelta
  cases hm : mapLookup m tc.index with
  | none => exact mapLookup_append_ne m i tc.index _ h
  | some e => exact mapLookup_mapSet_ne m i tc.index _ h

theorem mapLookup_applyDelta_new (m : ToolCallMap) (tc : ToolCallDelta)
    (h : mapLookup m tc.index = none) :
    mapLookup (applyDelta m tc) tc.index = some (updateAcc ⟨tc.id, tc.name, ""⟩ tc) := by
  unfold applyDelta
  rw [h]
  exact mapLookup_append_self m tc.index _ h

theorem mapLookup_applyDelta_old (m : ToolCallMap) (tc : ToolCallDelta) (e : ToolCallAcc)
    (h : mapLookup m tc.index = some e) :
    mapLookup (applyDelta m tc) tc.index = some (updateAcc e tc) := by
  unfold applyDelta
  rw [h]
  exact mapLookup_mapSet_self m tc.index _ e h

theorem head?_append_of_ne_nil {α : Type} (xs : List α) (x : α) (h : xs ≠ []) :
    (xs ++ [x]).head? = xs.head? := by
  cases xs with
  | nil => exact absurd rfl h
  | cons a l => rfl

theorem fragsAt_append_single (l : List ToolCallDelta) (tc : ToolCallDelta) (i : Nat) :
    fragsAt (l ++ [tc]) i = fragsAt l i ++ (if tc.index == i then [tc] else []) := by
  simp only [fragsAt, List.filter_append]
  congr 1
  cases h : tc.index == i <;> simp [List.filter, h]

theorem specId_append_extend (l : List ToolCallDelta) (tc : ToolCallDelta) (i : Nat)
    (hidx : tc.index = i) (hne : fragsAt l i ≠ []) : specId (l ++ [tc]) i = specId l i := by
  unfold specId
  rw [fragsAt_append_single, if_pos (by simp [hidx]), head?_append_of_ne_nil _ _ hne]

theorem specName_append_truthy (l : List ToolCallDelta) (tc : ToolCallDelta) (i : Nat)
    (hidx : tc.index = i) (ht : truthy tc.name = true) : specName (l ++ [tc]) i = tc.name := by
  unfold specName
  rw [fragsAt_append_single, if_pos (by simp [hidx]), List.filter_append]
  have h1 : List.filter (fun tc => truthy tc.name) [tc] = [tc] := by simp [List.filter, ht]
  rw [h1, List.getLast?_concat]

theorem specName_append_falsy (l : List ToolCallDelta) (tc : ToolCallDelta) (i : Nat)
    (hidx : tc.index = i) (ht : truthy tc.name = false) (hne : fragsAt l i ≠ []) :
    specName (l ++ [tc]) i = specName l i := by
  unfold specName
  rw [fragsAt_append_single, if_pos (by simp [hidx]), List.filter_append]
  have h1 : List.filter (fun tc => truthy tc.name) [tc] = [] := by simp [List.filter, ht]
  rw [h1, List.append_nil, head?_append_of_ne_nil _ _ hne]

theorem specArgs_append (l : List ToolCallDelta) (tc : ToolCallDelta) (i : Nat)
    (hidx : tc.index = i) :
    specArgs (l ++ [tc]) i =
      if truthy tc.arguments then specArgs l i ++ tc.arguments.getD "" else specArgs l i := by
  unfold specArgs
  rw [fragsAt_append_single, if_pos (by simp [hidx]), List.filter_append]
  cases ht : truthy tc.arguments
  · have h1 : List.filter (fun tc => truthy tc.arguments) [tc] = [] := by simp [List.filter, ht]
    rw [h1, List.append_nil, if_neg (by simp [ht])]
  · have h1 : List.filter (fun tc => truthy tc.arguments) [tc] = [tc] := by simp [List.filter, ht]
    rw [h1, List.foldl_append, if_pos (by simp [ht])]
    rfl

/-- Complete functional characterization of the aggregation fold over an
arbitrary fragment sequence: per index, `id` is the first fragment's id,
`name` is the last truthy name (falling back to the first fragment's falsy
name), and `args` is the concatenation of the truthy argument pieces. -/
theorem lookup_foldl_applyDelta (frags : List ToolCallDelta) (i : Nat) :
    mapLookup (List.foldl applyDelta [] frags) i =
      if fragsAt frags i = [] then none
      else some ⟨specId frags i, specName frags i, specArgs frags i⟩ := by
  induction frags using List.reverseRecOn with
  | nil => simp [mapLookup, fragsAt]
  | append_singleton l tc ih =>
    rw [List.foldl_append, List.foldl_cons, List.foldl_nil]
    by_cases hidx : tc.index = i
    · have hfr : fragsAt (l ++ [tc]) i = fragsAt l i ++ [tc] := by
        rw [fragsAt_append_single, if_pos (by simp [hidx])]
      by_cases hnil : fragsAt l i = []
      · have hnone : mapLookup (List.foldl applyDelta [] l) i = none := by
          rw [ih, if_pos hnil]
        have hnew := mapLookup_applyDelta_new (List.foldl applyDelta [] l) tc (by rwa [hidx])
        rw [hidx] at hnew
        have hsing : fragsAt (l ++ [tc]) i = [tc] := by rw [hfr, hnil]; rfl
        have hid : specId (l ++ [tc]) i = tc.id := by unfold specId; rw [hsing]; rfl
        have hnm : specName (l ++ [tc]) i = tc.name := by
          unfold specName; rw [hsing]
          cases htn : truthy tc.name <;> simp [List.filter, htn]
        have har : specArgs (l ++ [tc]) i =
            if truthy tc.arguments then "" ++ tc.arguments.getD "" else "" := by
          unfold specArgs; rw [hsing]
          cases htr : truthy tc.arguments <;> simp [List.filter, htr]
        rw [hnew, if_neg (by simp [hsing]), hid, hnm, har]
        cases htn : truthy tc.name <;> cases htr : truthy tc.arguments <;>
          simp [updateAcc, htn, htr]
      · have hsome : mapLookup (List.foldl applyDelta [] l) i =
            some ⟨specId l i, specName l i, specArgs l i⟩ := by
          rw [ih, if_neg hnil]
        have hold := mapLookup_applyDelta_old (List.foldl applyDelta [] l) tc
          ⟨specId l i, specName l i, specArgs l i⟩ (by rwa [hidx])
        rw [hidx] at hold
        rw [hold, if_neg (by simp [hfr]), specId_append_extend l tc i hidx hnil,
          specArgs_append l tc i hidx]
        cases htn : truthy tc.name
        · rw [specName_append_falsy l tc i hidx htn hnil]
          cases htr : truthy tc.arguments <;> simp [updateAcc, htn, htr]
        · rw [specName_append_truthy l tc i hidx htn]
          cases htr : truthy tc.arguments <;> simp [updateAcc, htn, htr]
    · have hfr : fragsAt (l ++ [tc]) i = fragsAt l i := by
        rw [fragsAt_append_single, if_neg (by simp [hidx]), List.append_nil]
      have h1 : specId (l ++ [tc]) i = specId l i := by unfold specId; rw [hfr]
      have h2 : specName (l ++ [tc]) i = specName l i := by unfold specName; rw [hfr]
      have h3 : specArgs (l ++ [tc]) i = specArgs l i := by unfold specArgs; rw [hfr]
      rw [mapLookup_applyDelta_ne _ tc i (fun hh => hidx hh.symm), ih, hfr, h1, h2, h3]

theorem processChunk_calls (tid : String) (a : StreamAcc) (c : Chunk) :
    (processChunk tid a c).calls = c.tool_calls.foldl applyDelta a.calls := by
  unfold processChunk
  cases c.content with
  | none => rfl
  | some s => by_cases hs : s = "" <;> simp [hs]

theorem processStream_calls_from (tid : String) (chunks : List Chunk) (a : StreamAcc) :
    (chunks.foldl (processChunk tid) a).calls =
      List.foldl applyDelta a.calls (toolFrags chunks) := by
  induction chunks generalizing a with
  | nil => rfl
  | cons c cs ih =>
    rw [List.foldl_cons, ih (processChunk tid a c), processChunk_calls,
      show toolFrags (c :: cs) = c.tool_calls ++ toolFrags cs from by simp [toolFrags],
      List.foldl_append]

/-- The aggregation dict depends only on the flattened fragment sequence,
not on how fragments are distributed over chunks. -/
theorem processStream_calls (tid : String) (chunks : List Chunk) :
    (processStream tid chunks).calls = List.foldl applyDelta [] (toolFrags chunks) :=
  processStream_calls_from tid chunks ⟨"", [], []⟩

/-- C4, counterexample.  The claim asserts that ANY split of a stream's
tool-call fragments across chunk boundaries — explicitly including splits
that place a call's id in a later fragment than its first — reconstructs
the same completed requests as the unsplit stream.  The aggregation loop
takes the id ONLY from an index's first fragment (there is no
`if tc.id: ...` update line), so the split stream
`[{index 0, arguments "a"}, {index 0, id "call_1", name "read_file", arguments "b"}]`
of the one-fragment stream
`[{index 0, id "call_1", name "read_file", arguments "ab"}]`
yields `id = none` instead of `id = some "call_1"`. -/
theorem C4_counterexample :
    mapLookup (processStream "T" [⟨none, [⟨0, none, none, some "a"⟩]⟩,
        ⟨none, [⟨0, some "call_1", some "read_file", some "b"⟩]⟩]).calls 0
      = some ⟨none, some "read_file", "ab"⟩
    ∧ mapLookup (processStream "T"
        [⟨none, [⟨0, some "call_1", some "read_file", some "ab"⟩]⟩]).calls 0
      = some ⟨some "call_1", some "read_file", "ab"⟩
    ∧ (processStream "T" [⟨none, [⟨0, none, none, some "a"⟩]⟩,
        ⟨none, [⟨0, some "call_1", some "read_file", some "b"⟩]⟩]).calls
      ≠ (processStream "T"
        [⟨none, [⟨0, some "call_1", some "read_file", some "ab"⟩]⟩]).calls := by
  refine ⟨by decide, by decide, by decide⟩

/-- C4, amended.  The aggregation dict is independent of chunk boundaries
(it equals the fold over the flattened fragment sequence), and per index
the completed entry is exactly: `id` = the id of the call's FIRST fragment
(a later fragment's id is ignored, so splits must keep the id in the first
fragment), `name` = the last non-empty name fragment, never overwritten by
an empty one (falling back to the first fragment's empty name), and
`arguments` = the in-order concatenation of all non-empty argument
fragments, never replaced.  Consequently any split that keeps each call's
id in its first fragment — single-character argument splits and late name
fragments included — reconstructs the same completed requests as the
unsplit stream. -/
theorem C4_aggregation_characterization (tid : String) (chunks : List Chunk) (i : Nat) :
    (processStream tid chunks).calls = List.foldl applyDelta [] (toolFrags chunks)
    ∧ mapLookup (processStream tid chunks).calls i =
        (if fragsAt (toolFrags chunks) i = [] then none
         else some ⟨specId (toolFrags chunks) i, specName (toolFrags chunks) i,
                    specArgs (toolFrags chunks) i⟩) := by
  refine ⟨processStream_calls tid chunks, ?_⟩
  rw [processStream_calls]
  exact lookup_foldl_applyDelta (toolFrags chunks) i

/-! ## Lemmas about the tool-execution phase -/

theorem execPhase_eq (env : ToolEnv) (jloads : String → Option Args)
    (calls : List (Nat × ToolCallAcc)) (st : LoopState) :
    execPhase env jloads calls st =
      { messages := st.messages ++
          calls.map (fun p => Message.tool p.2.id (execCall env jloads p.2).2),
        events := st.events ++ calls.flatMap (fun p => (execCall env jloads p.2).1),
        requests := st.requests,
        dispatches := st.dispatches ++ calls.map (fun p => p.2.name) } := by
  induction calls generalizing st with
  | nil => simp [execPhase]
  | cons p ps ih =>
    show execPhase env jloads ps (execStep env jloads st p) = _
    rw [ih]
    simp [execStep, List.append_assoc]

theorem execPhase_requests (env : ToolEnv) (jloads : String → Option Args)
    (calls : List (Nat × ToolCallAcc)) (st : LoopState) :
    (execPhase env jloads calls st).requests = st.requests := by
  rw [execPhase_eq]

theorem sortedKeys_sorted (m : ToolCallMap) : List.Sorted (· ≤ ·) (sortedKeys m) :=
  List.sorted_insertionSort _ _

theorem sortedKeys_perm (m : ToolCallMap) : (sortedKeys m).Perm (m.map Prod.fst) :=
  List.perm_insertionSort _ _

theorem keys_applyDelta_nodup (m : ToolCallMap) (tc : ToolCallDelta)
    (h : (m.map Prod.fst).Nodup) : ((applyDelta m tc).map Prod.fst).Nodup := by
  unfold applyDelta
  cases hm : mapLookup m tc.index with
  | none =>
    rw [List.map_append]
    have hnotin : tc.index ∉ m.map Prod.fst := by
      intro hmem
      obtain ⟨p, hp, hfst⟩ := List.mem_map.mp hmem
      have := List.find?_eq_none.mp (mapLookup_eq_none m tc.index hm) p hp
      simp [hfst] at this
    simp [List.nodup_append, h, hnotin]
  | some e =>
    have hkeys : (mapSet m tc.index (updateAcc e tc)).map Prod.fst = m.map Prod.fst := by
      unfold mapSet
      rw [List.map_map]
      apply List.map_congr_left
      intro p _
      by_cases hpi : (p.1 == tc.index) = true
      · simp only [Function.comp_apply, hpi, if_pos]
        exact ((by simpa using hpi : p.1 = tc.index)).symm
      · simp only [Function.comp_apply, hpi]
        simp
    rw [hkeys]
    exact h

theorem keys_foldl_applyDelta_nodup (frags : List ToolCallDelta) (m : ToolCallMap)
    (h : (m.map Prod.fst).Nodup) : ((List.foldl applyDelta m frags).map Prod.fst).Nodup := by
  induction frags generalizing m with
  | nil => exact h
  | cons tc rest ih => exact ih _ (keys_applyDelta_nodup m tc h)

theorem sortedEntries_fst_sublist (m : ToolCallMap) (ks : List Nat) :
    ((ks.filterMap (fun i => (mapLookup m i).map (fun v => (i, v)))).map Prod.fst).Sublist ks := by
  induction ks with
  | nil => simp
  | cons k rest ih =>
    rw [List.filterMap_cons]
    cases mapLookup m k with
    | none => exact ih.cons k
    | some v => simpa using ih.cons₂ k

theorem sortedEntries_sorted_lt (m : ToolCallMap) (h : (m.map Prod.fst).Nodup) :
    List.Pairwise (· < ·) ((sortedEntries m).map Prod.fst) := by
  have hs : List.Sorted (· ≤ ·) (sortedKeys m) := sortedKeys_sorted m
  have hnd : (sortedKeys m).Nodup := ((sortedKeys_perm m).nodup_iff).mpr h
  have hlt : List.Pairwise (· < ·) (sortedKeys m) :=
    (hs.and hnd).imp (fun hab => lt_of_le_of_ne hab.1 hab.2)
  exact List.Pairwise.sublist (sortedEntries_fst_sublist m (sortedKeys m)) hlt

theorem execCall_events_shape (env : ToolEnv) (jloads : String → Option Args)
    (tc : ToolCallAcc) :
    (execCall env jloads tc).1 = [] ∨ ∃ s r, (execCall env jloads tc).1 = [s, r] := by
  unfold execCall
  split_ifs <;> first | exact Or.inl rfl | exact Or.inr ⟨_, _, rfl⟩

/-- C5: in a round that accumulated tool calls, the execution phase walks
the calls in strictly ascending index order (the order `turnLoop` passes to
`execPhase` is `sortedEntries` of the aggregation dict, whose keys are
duplicate-free); it appends exactly one tool-result message per call, in
that same order; and the event stream of the phase is the in-order
concatenation of each call's own events, which for every dispatched tool
are exactly a start event followed by a result event — so for `i < j` both
events of call `i` precede the start event of call `j`. -/
theorem C5_sequential_execution (env : ToolEnv) (jloads : String → Option Args)
    (tid : String) (chunks : List Chunk) (st : LoopState) :
    List.Pairwise (· < ·)
      ((sortedEntries (processStream tid chunks).calls).map Prod.fst)
    ∧ execPhase env jloads (sortedEntries (processStream tid chunks).calls) st =
        { messages := st.messages ++ (sortedEntries (processStream tid chunks).calls).map
            (fun p => Message.tool p.2.id (execCall env jloads p.2).2),
          events := st.events ++ (sortedEntries (processStream tid chunks).calls).flatMap
            (fun p => (execCall env jloads p.2).1),
          requests := st.requests,
          dispatches := st.dispatches ++ (sortedEntries (processStream tid chunks).calls).map
            (fun p => p.2.name) }
    ∧ ∀ p ∈ sortedEntries (processStream tid chunks).calls,
        (execCall env jloads p.2).1 = [] ∨ ∃ s r, (execCall env jloads p.2).1 = [s, r] := by
  refine ⟨?_, execPhase_eq env jloads _ st, fun p _ => execCall_events_shape env jloads p.2⟩
  apply sortedEntries_sorted_lt
  rw [processStream_calls]
  exact keys_foldl_applyDelta_nodup (toolFrags chunks) [] (by simp)

/-! ## Lemmas about the turn loop -/

theorem turnLoop_requests_le (ctx : SessionCtx) (allowed : List ToolDef) :
    ∀ (fuel : Nat) (st : LoopState),
      (turnLoop ctx allowed fuel st).requests.length ≤ st.requests.length + fuel := by
  intro fuel
  induction fuel with
  | zero => intro st; simp [turnLoop]
  | succ fuel ih =>
    intro st
    simp only [turnLoop]
    split
    · simp
    · split
      · split <;> simp
      · calc (turnLoop ctx allowed fuel _).requests.length
            ≤ _ + fuel := ih _
          _ ≤ st.requests.length + (fuel + 1) := by
              rw [execPhase_requests]
              split <;> simp <;> omega

/-- C3: one `handle_message` call issues at most 10 streamed completion
requests, whatever the model streams back in each round — the `for _ in
range(10)` loop is a hard bound on `client.chat.completions.create`
invocations. -/
theorem C3_at_most_ten_requests (ctx : SessionCtx) (mode : String) (messages : List Message)
    (user_content : String) (images : Option (List String)) :
    (handle_message ctx mode messages user_content images).requests.length ≤ 10 := by
  have key : ∀ (allowed : List ToolDef) (ms : List Message),
      (turnLoop ctx allowed 10 ⟨ms, [], [], []⟩).requests.length ≤ 10 := by
    intro allowed ms
    simpa using turnLoop_requests_le ctx allowed 10 ⟨ms, [], [], []⟩
  unfold handle_message
  exact key _ _

/-! ## Name invariant of the aggregation (for the chat-mode allowlist claim) -/

theorem mapLookup_mem (m : ToolCallMap) (i : Nat) (e : ToolCallAcc)
    (h : mapLookup m i = some e) : ∃ p ∈ m, p.2 = e := by
  unfold mapLookup at h
  cases hf : m.find? (fun p => p.1 == i) with
  | none => rw [hf] at h; exact Option.noConfusion h
  | some p =>
    rw [hf] at h
    exact ⟨p, List.mem_of_find?_eq_some hf, Option.some.inj h⟩

theorem updateAcc_name_cases (e : ToolCallAcc) (tc : ToolCallDelta) :
    (updateAcc e tc).name = e.name ∨
      ((updateAcc e tc).name = tc.name ∧ truthy tc.name = true) := by
  unfold updateAcc
  cases htn : truthy tc.name <;> cases htr : truthy tc.arguments <;> simp [htn, htr]

theorem applyDelta_names (names : List String) (m : ToolCallMap) (tc : ToolCallDelta)
    (hm : ∀ p ∈ m, truthy p.2.name = true → p.2.name.getD "" ∈ names)
    (htc : truthy tc.name = true → tc.name.getD "" ∈ names) :
    ∀ p ∈ applyDelta m tc, truthy p.2.name = true → p.2.name.getD "" ∈ names := by
  intro p hp
  unfold applyDelta at hp
  cases hl : mapLookup m tc.index with
  | none =>
    rw [hl] at hp
    rcases List.mem_append.mp hp with hin | hone
    · exact hm p hin
    · have hpe : p = (tc.index, updateAcc ⟨tc.id, tc.name, ""⟩ tc) := by simpa using hone
      subst hpe
      rcases updateAcc_name_cases ⟨tc.id, tc.name, ""⟩ tc with hcase | hcase
      · rw [hcase]; exact htc
      · rw [hcase.1]; exact htc
  | some e =>
    rw [hl] at hp
    unfold mapSet at hp
    obtain ⟨q, hq, hqe⟩ := List.mem_map.mp hp
    by_cases hqi : (q.1 == tc.index) = true
    · rw [if_pos hqi] at hqe
      subst hqe
      obtain ⟨p0, hp0, hp0e⟩ := mapLookup_mem m tc.index e hl
      rcases updateAcc_name_cases e tc with hcase | hcase
      · intro ht
        rw [hcase] at ht ⊢
        have hmp := hm p0 hp0
        rw [hp0e] at hmp
        exact hmp ht
      · intro ht
        rw [hcase.1] at ht ⊢
        exact htc ht
    · rw [if_neg hqi] at hqe
      subst hqe
      exact hm q hq

theorem foldl_applyDelta_names (names : List String) (frags : List ToolCallDelta)
    (m : ToolCallMap)
    (hm : ∀ p ∈ m, truthy p.2.name = true → p.2.name.getD "" ∈ names)
    (hf : ∀ tc ∈ frags, truthy tc.name = true → tc.name.getD "" ∈ names) :
    ∀ p ∈ List.foldl applyDelta m frags, truthy p.2.name = true → p.2.name.getD "" ∈ names := by
  induction frags generalizing m with
  | nil => exact hm
  | cons tc rest ih =>
    rw [List.foldl_cons]
    exact ih _ (applyDelta_names names m tc hm (hf tc (List.mem_cons_self tc rest)))
      (fun tc2 h2 => hf tc2 (List.mem_cons_of_mem tc h2))

theorem sortedEntries_mem (m : ToolCallMap) (p : Nat × ToolCallAcc)
    (h : p ∈ sortedEntries m) : ∃ q ∈ m, q.2 = p.2 := by
  unfold sortedEntries at h
  obtain ⟨i, _, hmap⟩ := List.mem_filterMap.mp h
  obtain ⟨v, hv, hvp⟩ := Option.map_eq_some'.mp hmap
  obtain ⟨q, hq, hqe⟩ := mapLookup_mem m i v hv
  exact ⟨q, hq, by rw [hqe, ← hvp]⟩

theorem turnLoop_requests_mem (ctx : SessionCtx) (allowed : List ToolDef) :
    ∀ (fuel : Nat) (st : LoopState) (r : Option (List ToolDef)),
      r ∈ (turnLoop ctx allowed fuel st).requests →
      r ∈ st.requests ∨ r = (if allowed.isEmpty then none else some allowed) := by
  intro fuel
  induction fuel with
  | zero => intro st r h; exact Or.inl h
  | succ fuel ih =>
    intro st r h
    simp only [turnLoop] at h
    split at h
    · have h' : r ∈ st.requests ++ [if allowed.isEmpty then none else some allowed] := h
      rcases List.mem_append.mp h' with h1 | h1
      · exact Or.inl h1
      · exact Or.inr (by simpa using h1)
    · split at h
      · split at h <;>
        · have h' : r ∈ st.requests ++ [if allowed.isEmpty then none else some allowed] := h
          rcases List.mem_append.mp h' with h1 | h1
          · exact Or.inl h1
          · exact Or.inr (by simpa using h1)
      · rcases ih _ r h with h1 | h1
        · rw [execPhase_requests] at h1
          split at h1 <;>
          · have h' : r ∈ st.requests ++ [if allowed.isEmpty then none else some allowed] := h1
            rcases List.mem_append.mp h' with h2 | h2
            · exact Or.inl h2
            · exact Or.inr (by simpa using h2)
        · exact Or.inr h1

/-- If every truthy name fragment the model ever streams is in `names`,
then every dispatched function name is falsy or in `names` — the dispatch
switch only ever sees accumulated names. -/
theorem turnLoop_dispatches_names (ctx : SessionCtx) (allowed : List ToolDef)
    (names : List String)
    (hllm : ∀ n chunks, ctx.llm n = RoundOutcome.stream chunks →
      ∀ c ∈ chunks, ∀ tc ∈ c.tool_calls, truthy tc.name = true → tc.name.getD "" ∈ names) :
    ∀ (fuel : Nat) (st : LoopState),
      (∀ o ∈ st.dispatches, truthy o = true → o.getD "" ∈ names) →
      ∀ o ∈ (turnLoop ctx allowed fuel st).dispatches, truthy o = true → o.getD "" ∈ names := by
  intro fuel
  induction fuel with
  | zero => intro st hst o ho; exact hst o ho
  | succ fuel ih =>
    intro st hst o ho
    simp only [turnLoop] at ho
    split at ho
    · exact hst o ho
    · next chunks heq =>
      split at ho
      · split at ho <;> exact hst o ho
      · refine ih _ ?_ o ho
        intro o2 ho2
        have ho2' : o2 ∈ st.dispatches ++
            (sortedEntries (processStream ("thought-" ++ ctx.tid st.requests.length)
              chunks).calls).map (fun p => p.2.name) := by
          split at ho2
          · rw [execPhase_eq] at ho2; exact ho2
          · rw [execPhase_eq] at ho2; exact ho2
        rcases List.mem_append.mp ho2' with h1 | h1
        · exact hst o2 h1
        · obtain ⟨p, hp, hpe⟩ := List.mem_map.mp h1
          obtain ⟨q, hq, hqe⟩ := sortedEntries_mem _ p hp
          rw [processStream_calls] at hq
          have hfold := foldl_applyDelta_names names
            (toolFrags chunks) [] (by intro p0 hp0; exact absurd hp0 (List.not_mem_nil p0))
            (by
              intro tc htc
              obtain ⟨c, hc, hctc⟩ := List.mem_flatMap.mp htc
              exact hllm st.requests.length chunks heq c hc tc hctc)
            q hq
          rw [← hpe, ← hqe]
          exact hfold

theorem handle_message_eq_chat (ctx : SessionCtx) (messages : List Message)
    (user_content : String) (images : Option (List String)) :
    handle_message ctx "chat" messages user_content images =
      turnLoop ctx chatAllowedTools 10
        ⟨(match images with
           | some imgs =>
               if imgs.length > 0 then messages ++ [Message.userImages user_content imgs]
               else messages ++ [Message.userText user_content]
           | none => messages ++ [Message.userText user_content]), [], [], []⟩ := rfl

theorem handle_message_eq_agent (ctx : SessionCtx) (messages : List Message)
    (user_content : String) (images : Option (List String)) :
    handle_message ctx "agent" messages user_content images =
      turnLoop ctx TOOL_DEFINITIONS 10
        ⟨(match images with
           | some imgs =>
               if imgs.length > 0 then messages ++ [Message.userImages user_content imgs]
               else messages ++ [Message.userText user_content]
           | none => messages ++ [Message.userText user_content]), [], [], []⟩ := rfl

/-- C2: in chat mode the tools argument of every completion request is
exactly the two-element allowlist `[read_file, web_search]` — `write_file`
and `run_terminal_command` are never advertised to the model — and, as long
as the model only names tools it was offered (the provider-side contract of
the `tools` parameter, here the `hhonor` hypothesis), no `write_file` or
`run_terminal_command` dispatch ever executes in a chat session. -/
theorem C2_chat_structural_allowlist (ctx : SessionCtx) (messages : List Message)
    (user_content : String) (images : Option (List String))
    (hhonor : ∀ n chunks, ctx.llm n = RoundOutcome.stream chunks →
      ∀ c ∈ chunks, ∀ tc ∈ c.tool_calls, truthy tc.name = true →
        tc.name.getD "" ∈ ["read_file", "web_search"]) :
    chatAllowedTools.map ToolDef.name = ["read_file", "web_search"]
    ∧ (∀ r ∈ (handle_message ctx "chat" messages user_content images).requests,
        r = some chatAllowedTools)
    ∧ some "write_file" ∉ (handle_message ctx "chat" messages user_content images).dispatches
    ∧ some "run_terminal_command" ∉
        (handle_message ctx "chat" messages user_content images).dispatches := by
  refine ⟨by decide, ?_, ?_, ?_⟩
  · intro r hr
    rw [handle_message_eq_chat] at hr
    rcases turnLoop_requests_mem ctx chatAllowedTools 10 _ r hr with h1 | h1
    · exact absurd h1 (List.not_mem_nil r)
    · rw [h1]; rfl
  · intro hmem
    rw [handle_message_eq_chat] at hmem
    have h' := turnLoop_dispatches_names ctx chatAllowedTools ["read_file", "web_search"]
      hhonor 10 _ (by intro o ho; exact absurd ho (List.not_mem_nil o))
      (some "write_file") hmem (by decide)
    exact absurd h' (by decide)
  · intro hmem
    rw [handle_message_eq_chat] at hmem
    have h' := turnLoop_dispatches_names ctx chatAllowedTools ["read_file", "web_search"]
      hhonor 10 _ (by intro o ho; exact absurd ho (List.not_mem_nil o))
      (some "run_terminal_command") hmem (by decide)
    exact absurd h' (by decide)

/-- Witness for `C2_chat_structural_allowlist` at the concrete chat context
`wCtxChat`, whose model streams only `read_file` calls. -/
theorem C2_chat_structural_allowlist_witness :
    (∀ n chunks, wCtxChat.llm n = RoundOutcome.stream chunks →
      ∀ c ∈ chunks, ∀ tc ∈ c.tool_calls, truthy tc.name = true →
        tc.name.getD "" ∈ ["read_file", "web_search"])
    ∧ (chatAllowedTools.map ToolDef.name = ["read_file", "web_search"]
       ∧ (∀ r ∈ (handle_message wCtxChat "chat" [] "hi" none).requests,
           r = some chatAllowedTools)
       ∧ some "write_file" ∉ (handle_message wCtxChat "chat" [] "hi" none).dispatches
       ∧ some "run_terminal_command" ∉
           (handle_message wCtxChat "chat" [] "hi" none).dispatches) := by
  have hh : ∀ n chunks, wCtxChat.llm n = RoundOutcome.stream chunks →
      ∀ c ∈ chunks, ∀ tc ∈ c.tool_calls, truthy tc.name = true →
        tc.name.getD "" ∈ ["read_file", "web_search"] := by
    intro n chunks h
    have h2 : [(⟨some "look", [⟨0, some "call_9", some "read_file", some "x"⟩]⟩ : Chunk)]
        = chunks := by injection h
    rw [← h2]
    decide
  exact ⟨hh, C2_chat_structural_allowlist wCtxChat [] "hi" none hh⟩

/-! ## The transcript invariant: tool messages match the preceding
assistant tool-call message -/

theorem chainOkAux_append : ∀ (exp : List ToolCallMsg) (ms b : List Message),
    chainOkAux exp ms = true → chainOkAux [] b = true → chainOkAux exp (ms ++ b) = true
  | [], [], b, _, hb => hb
  | _ :: _, [], _, h, _ => by simp [chainOkAux] at h
  | [], Message.tool _ _ :: _, _, h, _ => by simp [chainOkAux] at h
  | [], Message.assistantCalls ct tcs :: rest, b, h, hb => by
      show chainOkAux tcs (rest ++ b) = true
      exact chainOkAux_append tcs rest b h hb
  | [], Message.system s :: rest, b, h, hb => by
      show chainOkAux [] (rest ++ b) = true
      exact chainOkAux_append [] rest b h hb
  | [], Message.userText s :: rest, b, h, hb => by
      show chainOkAux [] (rest ++ b) = true
      exact chainOkAux_append [] rest b h hb
  | [], Message.userImages s imgs :: rest, b, h, hb => by
      show chainOkAux [] (rest ++ b) = true
      exact chainOkAux_append [] rest b h hb
  | [], Message.assistantText s :: rest, b, h, hb => by
      show chainOkAux [] (rest ++ b) = true
      exact chainOkAux_append [] rest b h hb
  | t :: ts, Message.tool cid c :: rest, b, h, hb => by
      have h2 : ((cid == t.id) && chainOkAux ts rest) = true := h
      rw [Bool.and_eq_true] at h2
      obtain ⟨hbeq, hrest⟩ := h2
      show ((cid == t.id) && chainOkAux ts (rest ++ b)) = true
      rw [Bool.and_eq_true]
      exact ⟨hbeq, chainOkAux_append ts rest b hrest hb⟩
  | _ :: _, Message.system _ :: _, _, h, _ => by simp [chainOkAux] at h
  | _ :: _, Message.userText _ :: _, _, h, _ => by simp [chainOkAux] at h
  | _ :: _, Message.userImages _ _ :: _, _, h, _ => by simp [chainOkAux] at h
  | _ :: _, Message.assistantText _ :: _, _, h, _ => by simp [chainOkAux] at h
  | _ :: _, Message.assistantCalls _ _ :: _, _, h, _ => by simp [chainOkAux] at h

/-- The tool-result messages appended by the execution loop consume exactly
the tool-call entries of the assistant message, ids matching in order. -/
theorem chainOkAux_exec_block (env : ToolEnv) (jloads : String → Option Args) :
    ∀ calls : List (Nat × ToolCallAcc),
      chainOkAux (calls.map mkToolCallMsg)
        (calls.map (fun p => Message.tool p.2.id (execCall env jloads p.2).2)) = true
  | [] => rfl
  | p :: ps => by
      show ((p.2.id == p.2.id) && _) = true
      rw [Bool.and_eq_true]
      exact ⟨by simp, chainOkAux_exec_block env jloads ps⟩

theorem turnLoop_toolLinkOk (ctx : SessionCtx) (allowed : List ToolDef) :
    ∀ (fuel : Nat) (st : LoopState), toolLinkOk st.messages = true →
      toolLinkOk (turnLoop ctx allowed fuel st).messages = true := by
  intro fuel
  induction fuel with
  | zero => intro st h; exact h
  | succ fuel ih =>
    intro st h
    simp only [turnLoop]
    split
    · exact h
    · next chunks heq =>
      split
      · split
        · exact h
        · exact chainOkAux_append [] st.messages [Message.assistantText _] h rfl
      · apply ih
        rw [execPhase_eq]
        show chainOkAux [] _ = true
        split
        · rw [List.append_assoc]
          refine chainOkAux_append [] st.messages _ h ?_
          show chainOkAux (List.map mkToolCallMsg _) _ = true
          exact chainOkAux_exec_block ctx.env ctx.jloads _
        · rw [List.append_assoc, List.append_assoc]
          refine chainOkAux_append [] st.messages _ h ?_
          show chainOkAux (List.map mkToolCallMsg _) _ = true
          exact chainOkAux_exec_block ctx.env ctx.jloads _

/-- C1: if the transcript is well-linked before a `handle_message` call, it
is well-linked after it: every tool-role message appended sits directly
after an assistant message carrying tool calls, its `tool_call_id` equals
the id of the corresponding `ToolCallRequest` of that assistant message,
and the appended tool messages match that assistant message's `tool_calls`
list in number and order (`toolLinkOk` rejects any extra, missing,
reordered or mismatched tool message). -/
theorem C1_tool_messages_linked (ctx : SessionCtx) (mode : String) (messages : List Message)
    (user_content : String) (images : Option (List String))
    (h : toolLinkOk messages = true) :
    toolLinkOk (handle_message ctx mode messages user_content images).messages = true := by
  unfold handle_message
  cases images with
  | none =>
    exact turnLoop_toolLinkOk ctx _ 10 ⟨messages ++ [Message.userText user_content], [], [], []⟩
      (chainOkAux_append [] messages [Message.userText user_content] h rfl)
  | some imgs =>
    have hif : toolLinkOk (if imgs.length > 0
        then messages ++ [Message.userImages user_content imgs]
        else messages ++ [Message.userText user_content]) = true := by
      split
      · exact chainOkAux_append [] messages [Message.userImages user_content imgs] h rfl
      · exact chainOkAux_append [] messages [Message.userText user_content] h rfl
    exact turnLoop_toolLinkOk ctx _ 10 ⟨_, [], [], []⟩ hif

/-- Witness for `C1_tool_messages_linked`: a session whose model streams a
`read_file` tool call in every round, starting from the empty transcript. -/
theorem C1_tool_messages_linked_witness :
    toolLinkOk [] = true
    ∧ toolLinkOk (handle_message wCtxRead "agent" [] "hi" none).messages = true :=
  ⟨rfl, C1_tool_messages_linked wCtxRead "agent" [] "hi" none rfl⟩

/-! ## Parse-failure degradation (claim C7) -/

theorem turnLoop_requests_mono (ctx : SessionCtx) (allowed : List ToolDef) :
    ∀ (fuel : Nat) (st : LoopState),
      st.requests.length ≤ (turnLoop ctx allowed fuel st).requests.length := by
  intro fuel
  induction fuel with
  | zero => intro st; exact le_refl _
  | succ fuel ih =>
    intro st
    simp only [turnLoop]
    split
    · simp
    · split
      · split <;> simp
      · refine le_trans ?_ (ih _)
        rw [execPhase_requests]
        split <;> simp

theorem turnLoop_requests_ge_one (ctx : SessionCtx) (allowed : List ToolDef)
    (fuel : Nat) (st : LoopState) :
    st.requests.length + 1 ≤ (turnLoop ctx allowed (fuel + 1) st).requests.length := by
  simp only [turnLoop]
  split
  · simp
  · split
    · split <;> simp
    · refine le_trans ?_ (turnLoop_requests_mono ctx allowed fuel _)
      rw [execPhase_requests]
      split <;> simp

/-- A round whose stream accumulated at least one tool call loops back and
issues a further completion request. -/
theorem turnLoop_continues (ctx : SessionCtx) (allowed : List ToolDef) (fuel : Nat)
    (st : LoopState) (chunks : List Chunk)
    (hllm : ctx.llm st.requests.length = RoundOutcome.stream chunks)
    (hcalls : (processStream ("thought-" ++ ctx.tid st.requests.length) chunks).calls ≠ []) :
    st.requests.length + 2 ≤ (turnLoop ctx allowed (fuel + 2) st).requests.length := by
  show st.requests.length + 2 ≤ (turnLoop ctx allowed (fuel + 1 + 1) st).requests.length
  simp only [turnLoop]
  split
  · next e heq => rw [hllm] at heq; exact absurd heq (by simp)
  · next chunks2 heq =>
    rw [hllm] at heq
    have hc : chunks = chunks2 := by injection heq
    subst hc
    split
    · next hempty => exact absurd (List.isEmpty_iff.mp hempty) hcalls
    · refine le_trans ?_ (turnLoop_requests_ge_one ctx allowed fuel _)
      rw [execPhase_requests]
      split <;> simp

/-- C7: when a call's accumulated argument text does not parse as a
structured record (the `jloads` oracle returns `none`, the exception path
of the bare `except:`), the arguments degrade to the empty record, the tool
is still executed — here `read_file` runs with the default `path = ""` from
`args.get("path", "")` and still emits its start/result events and result —
and the turn loop proceeds into a further completion request instead of
aborting the turn. -/
theorem C7_unparsable_args_degrade (env : ToolEnv) (jloads : String → Option Args)
    (s callId : String) (ctx : SessionCtx) (st : LoopState) (allowed : List ToolDef)
    (fuel : Nat)
    (hparse : jloads s = none)
    (hllm : ctx.llm st.requests.length =
      RoundOutcome.stream [⟨none, [⟨0, some callId, some "read_file", some s⟩]⟩]) :
    parseArgs jloads s = []
    ∧ execCall env jloads ⟨some callId, some "read_file", s⟩ =
        ([Event.fileReadStart ("evt-" ++ callId) "",
          Event.fileReadResult ("evt-" ++ callId) "" (pyLineCount (env.readF ""))
            ((env.readF "").take 500)], env.readF "")
    ∧ st.requests.length + 2 ≤ (turnLoop ctx allowed (fuel + 2) st).requests.length := by
  refine ⟨?_, ?_, ?_⟩
  · unfold parseArgs
    rw [hparse]
    rfl
  · unfold execCall parseArgs
    rw [hparse]
    rfl
  · refine turnLoop_continues ctx allowed fuel st _ hllm ?_
    simp [processStream, processChunk, applyDelta, mapLookup]

/-- Witness for `C7_unparsable_args_degrade`: the concrete context
`wCtxRead` streams one `read_file` call with argument text `"oops"` and its
`jloads` oracle rejects everything. -/
theorem C7_unparsable_args_degrade_witness :
    wCtxRead.jloads "oops" = none
    ∧ wCtxRead.llm 0 =
        RoundOutcome.stream [⟨none, [⟨0, some "call_1", some "read_file", some "oops"⟩]⟩]
    ∧ (parseArgs wCtxRead.jloads "oops" = []
       ∧ execCall wEnv wCtxRead.jloads ⟨some "call_1", some "read_file", "oops"⟩ =
          ([Event.fileReadStart "evt-call_1" "",
            Event.fileReadResult "evt-call_1" "" (pyLineCount (wEnv.readF ""))
              ((wEnv.readF "").take 500)], wEnv.readF "")
       ∧ (⟨[], [], [], []⟩ : LoopState).requests.length + 2 ≤
          (turnLoop wCtxRead TOOL_DEFINITIONS (0 + 2) ⟨[], [], [], []⟩).requests.length) := by
  refine ⟨rfl, rfl, ?_⟩
  have h := C7_unparsable_args_degrade wEnv wCtxRead.jloads "oops" "call_1" wCtxRead
    ⟨[], [], [], []⟩ TOOL_DEFINITIONS 0 rfl rfl
  exact h

/-! ## Endpoint lemmas: initialization happens at most once (claims C6, C9) -/

/-- The LLM-failure diagnostic thought can never collide with the
session-started thought: their contents start with different characters. -/
theorem llmErr_ne_sessionStart (e m : String) :
    "LLM Error: " ++ e ≠ sessionStartMsg m := by
  intro h
  have hL : ("LLM Error: " ++ e).data.head? = some 'L' := by cases e; rfl
  have hS : (sessionStartMsg m).data.head? = some 'S' := by cases m; rfl
  rw [h, hS] at hL
  exact absurd hL (by decide)

theorem countSystem_append (a b : List Message) :
    countSystem (a ++ b) = countSystem a + countSystem b := by
  unfold countSystem
  rw [List.filter_append, List.length_append]

theorem countSystem_toolmsgs (env : ToolEnv) (jloads : String → Option Args) :
    ∀ calls : List (Nat × ToolCallAcc),
      countSystem (calls.map (fun p => Message.tool p.2.id (execCall env jloads p.2).2)) = 0
  | [] => rfl
  | _ :: ps => countSystem_toolmsgs env jloads ps

theorem processStream_events_shape (tid : String) (chunks : List Chunk) :
    ∀ e ∈ (processStream tid chunks).events, ∃ c, e = Event.thought (some tid) c := by
  have key : ∀ (cs : List Chunk) (a : StreamAcc),
      (∀ e ∈ a.events, ∃ c, e = Event.thought (some tid) c) →
      ∀ e ∈ (cs.foldl (processChunk tid) a).events, ∃ c, e = Event.thought (some tid) c := by
    intro cs
    induction cs with
    | nil => intro a ha; exact ha
    | cons ch rest ih =>
      intro a ha
      rw [List.foldl_cons]
      refine ih _ ?_
      intro e he
      have he2 : e ∈ (match ch.content with
          | some s =>
              if s = "" then a
              else { a with
                      thought := a.thought ++ s,
                      events := a.events ++ [Event.thought (some tid) (a.thought ++ s)] }
          | none => a).events := he
      cases hcc : ch.content with
      | none =>
        rw [hcc] at he2
        exact ha e he2
      | some s =>
        rw [hcc] at he2
        have he3 : e ∈ (if s = "" then a
            else { a with
                    thought := a.thought ++ s,
                    events := a.events ++
                      [Event.thought (some tid) (a.thought ++ s)] }).events := he2
        by_cases hs : s = ""
        · rw [if_pos hs] at he3
          exact ha e he3
        · rw [if_neg hs] at he3
          have he4 : e ∈ a.events ++ [Event.thought (some tid) (a.thought ++ s)] := he3
          rcases List.mem_append.mp he4 with h1 | h1
          · exact ha e h1
          · exact ⟨a.thought ++ s, by simpa using h1⟩
  exact key chunks ⟨"", [], []⟩ (by intro e he; exact absurd he (List.not_mem_nil e))

theorem execCall_events_not_thought (env : ToolEnv) (jloads : String → Option Args)
    (tc : ToolCallAcc) :
    ∀ e ∈ (execCall env jloads tc).1, ∀ oid c, e ≠ Event.thought oid c := by
  unfold execCall
  split_ifs <;> intro e he oid c <;>
    first
      | exact absurd he (List.not_mem_nil e)
      | (rcases (by simpa using he : e = _ ∨ e = _) with rfl | rfl <;> simp)

theorem turnLoop_countSystem (ctx : SessionCtx) (allowed : List ToolDef) :
    ∀ (fuel : Nat) (st : LoopState),
      countSystem (turnLoop ctx allowed fuel st).messages = countSystem st.messages := by
  intro fuel
  induction fuel with
  | zero => intro st; rfl
  | succ fuel ih =>
    intro st
    simp only [turnLoop]
    split
    · rfl
    · split
      · split
        · rfl
        · show countSystem (st.messages ++ [Message.assistantText _]) = countSystem st.messages
          rw [countSystem_append]
          rfl
      · rw [ih _]
        rw [execPhase_eq]
        show countSystem (_ ++ _) = countSystem st.messages
        rw [countSystem_append, countSystem_toolmsgs]
        split
        · show countSystem (st.messages ++ [Message.assistantCalls _ _]) + 0 =
            countSystem st.messages
          rw [countSystem_append]
          rfl
        · show countSystem ((st.messages ++ [Message.assistantText _]) ++
              [Message.assistantCalls _ _]) + 0 = countSystem st.messages
          rw [countSystem_append, countSystem_append]
          rfl

theorem turnLoop_events_no_start (ctx : SessionCtx) (allowed : List ToolDef) :
    ∀ (fuel : Nat) (st : LoopState),
      (∀ e ∈ st.events, ∀ m, e ≠ Event.thought none (sessionStartMsg m)) →
      ∀ e ∈ (turnLoop ctx allowed fuel st).events, ∀ m,
        e ≠ Event.thought none (sessionStartMsg m) := by
  intro fuel
  induction fuel with
  | zero => intro st h; exact h
  | succ fuel ih =>
    intro st h e he m
    simp only [turnLoop] at he
    split at he
    · next err heq =>
      have he2 : e ∈ st.events ++ [Event.thought none ("LLM Error: " ++ err)] := he
      rcases List.mem_append.mp he2 with h1 | h1
      · exact h e h1 m
      · have he3 : e = Event.thought none ("LLM Error: " ++ err) := by simpa using h1
        subst he3
        intro hcontra
        have : "LLM Error: " ++ err = sessionStartMsg m := by
          injection hcontra
        exact llmErr_ne_sessionStart err m this
    · next chunks heq =>
      split at he
      · have he2 : e ∈ st.events ++
            (processStream ("thought-" ++ ctx.tid st.requests.length) chunks).events := by
          split at he
          · exact he
          · exact he
        rcases List.mem_append.mp he2 with h1 | h1
        · exact h e h1 m
        · obtain ⟨c, hc⟩ := processStream_events_shape _ chunks e h1
          subst hc
          simp
      · refine ih _ ?_ e he m
        intro e2 he2 m2
        have he3 : e2 ∈ (st.events ++
            (processStream ("thought-" ++ ctx.tid st.requests.length) chunks).events) ++
            (sortedEntries (processStream ("thought-" ++ ctx.tid st.requests.length)
              chunks).calls).flatMap (fun p => (execCall ctx.env ctx.jloads p.2).1) := by
          split at he2
          · rw [execPhase_eq] at he2; exact he2
          · rw [execPhase_eq] at he2; exact he2
        rcases List.mem_append.mp he3 with h1 | h1
        · rcases List.mem_append.mp h1 with h2 | h2
          · exact h e2 h2 m2
          · obtain ⟨c, hc⟩ := processStream_events_shape _ chunks e2 h2
            subst hc
            simp
        · obtain ⟨p, hp, hpe⟩ := List.mem_flatMap.mp h1
          exact execCall_events_not_thought ctx.env ctx.jloads p.2 e2 hpe none
            (sessionStartMsg m2)

theorem handle_message_countSystem (ctx : SessionCtx) (mode : String)
    (messages : List Message) (user_content : String) (images : Option (List String)) :
    countSystem (handle_message ctx mode messages user_content images).messages =
      countSystem messages := by
  cases images with
  | none =>
    show countSystem (turnLoop ctx _ 10
      ⟨messages ++ [Message.userText user_content], [], [], []⟩).messages = countSystem messages
    rw [turnLoop_countSystem]
    show countSystem (messages ++ [Message.userText user_content]) = countSystem messages
    rw [countSystem_append]
    rfl
  | some imgs =>
    show countSystem (turnLoop ctx _ 10
      ⟨(if imgs.length > 0 then messages ++ [Message.userImages user_content imgs]
        else messages ++ [Message.userText user_content]), [], [], []⟩).messages =
      countSystem messages
    rw [turnLoop_countSystem]
    show countSystem (if imgs.length > 0 then messages ++ [Message.userImages user_content imgs]
      else messages ++ [Message.userText user_content]) = countSystem messages
    split <;> (rw [countSystem_append]; rfl)

theorem handle_message_events_no_start (ctx : SessionCtx) (mode : String)
    (messages : List Message) (user_content : String) (images : Option (List String)) :
    ∀ e ∈ (handle_message ctx mode messages user_content images).events, ∀ m,
      e ≠ Event.thought none (sessionStartMsg m) := by
  unfold handle_message
  exact turnLoop_events_no_start ctx _ 10 _
    (by intro e he; exact absurd he (List.not_mem_nil e))

theorem handle_message_requests_agent (ctx : SessionCtx) (messages : List Message)
    (user_content : String) (images : Option (List String)) :
    ∀ r ∈ (handle_message ctx "agent" messages user_content images).requests,
      r = some TOOL_DEFINITIONS := by
  intro r hr
  rw [handle_message_eq_agent] at hr
  rcases turnLoop_requests_mem ctx TOOL_DEFINITIONS 10 _ r hr with h1 | h1
  · exact absurd h1 (List.not_mem_nil r)
  · rw [h1]; rfl

theorem stepEndpoint_getfc (ctx : StepCtx) (st : EndpointState) (msg : Inbound)
    (hm : (msg.type == some "get_file_content") = true) :
    stepEndpoint ctx st msg =
      (st, [Event.fileContent msg.path
        (match msg.path with
         | some p => ctx.env.readF p
         | none => readFileNoneErr)], []) := by
  unfold stepEndpoint
  rw [hm]
  rfl

theorem stepEndpoint_user (ctx : StepCtx) (st : EndpointState) (msg : Inbound)
    (hinit : st.initialized = true)
    (hm1 : (msg.type == some "get_file_content") = false)
    (hm2 : (msg.type == some "user_message") = true) :
    stepEndpoint ctx st msg =
      (⟨true, ⟨st.session.mode, (handle_message ⟨ctx.env, ctx.jloads, ctx.llm, ctx.tid⟩
          st.session.mode st.session.messages (msg.content.getD "")
          (some (msg.images.getD []))).messages⟩⟩,
       (handle_message ⟨ctx.env, ctx.jloads, ctx.llm, ctx.tid⟩ st.session.mode
          st.session.messages (msg.content.getD "") (some (msg.images.getD []))).events,
       (handle_message ⟨ctx.env, ctx.jloads, ctx.llm, ctx.tid⟩ st.session.mode
          st.session.messages (msg.content.getD "") (some (msg.images.getD []))).requests) := by
  unfold stepEndpoint
  rw [hm1, hinit, hm2]
  rfl

theorem stepEndpoint_ignored (ctx : StepCtx) (st : EndpointState) (msg : Inbound)
    (hinit : st.initialized = true)
    (hm1 : (msg.type == some "get_file_content") = false)
    (hm2 : (msg.type == some "user_message") = false) :
    stepEndpoint ctx st msg = (st, [], []) := by
  unfold stepEndpoint
  rw [hm1, hinit, hm2]
  rfl

/-- One endpoint step on an already-initialized session never
re-initializes: the flag stays set, the mode is unchanged, the number of
system messages in the transcript is unchanged, and no session-started
thought event is sent. -/
theorem stepEndpoint_initialized (ctx : StepCtx) (st : EndpointState) (msg : Inbound)
    (h : st.initialized = true) :
    (stepEndpoint ctx st msg).1.initialized = true
    ∧ (stepEndpoint ctx st msg).1.session.mode = st.session.mode
    ∧ countSystem (stepEndpoint ctx st msg).1.session.messages =
        countSystem st.session.messages
    ∧ ∀ e ∈ (stepEndpoint ctx st msg).2.1, ∀ m,
        e ≠ Event.thought none (sessionStartMsg m) := by
  by_cases hgfc : (msg.type == some "get_file_content") = true
  · rw [stepEndpoint_getfc ctx st msg hgfc]
    refine ⟨h, rfl, rfl, ?_⟩
    intro e he m
    simp only [List.mem_singleton] at he
    subst he
    simp
  · have hgfc' : (msg.type == some "get_file_content") = false := by
      revert hgfc; cases msg.type == some "get_file_content" <;> simp
    by_cases hum : (msg.type == some "user_message") = true
    · rw [stepEndpoint_user ctx st msg h hgfc' hum]
      exact ⟨rfl, rfl, handle_message_countSystem _ _ _ _ _,
        handle_message_events_no_start _ _ _ _ _⟩
    · have hum' : (msg.type == some "user_message") = false := by
        revert hum; cases msg.type == some "user_message" <;> simp
      rw [stepEndpoint_ignored ctx st msg h hgfc' hum']
      exact ⟨h, rfl, rfl, by intro e he; exact absurd he (List.not_mem_nil e)⟩

/-- C6: once a session is active, no later inbound payload — over the whole
rest of the connection — can initialize it again: the `initialized` flag
keeps every subsequent payload out of the initialization branch, so the
transcript never gains another system message and no second session-started
thought event is ever sent. -/
theorem C6_initialize_idempotent (msgs : List (StepCtx × Inbound)) (st : EndpointState)
    (h : st.initialized = true) :
    (runEndpoint st msgs).1.initialized = true
    ∧ countSystem (runEndpoint st msgs).1.session.messages =
        countSystem st.session.messages
    ∧ ∀ e ∈ (runEndpoint st msgs).2.1, ∀ m,
        e ≠ Event.thought none (sessionStartMsg m) := by
  induction msgs generalizing st with
  | nil =>
    exact ⟨h, rfl, by intro e he; exact absurd he (List.not_mem_nil e)⟩
  | cons p rest ih =>
    obtain ⟨h1, _, h3, h4⟩ := stepEndpoint_initialized p.1 st p.2 h
    obtain ⟨ih1, ih2, ih3⟩ := ih (stepEndpoint p.1 st p.2).1 h1
    refine ⟨ih1, ?_, ?_⟩
    · show countSystem (runEndpoint (stepEndpoint p.1 st p.2).1 rest).1.session.messages =
        countSystem st.session.messages
      rw [ih2, h3]
    · intro e he m
      have he2 : e ∈ (stepEndpoint p.1 st p.2).2.1 ++
          (runEndpoint (stepEndpoint p.1 st p.2).1 rest).2.1 := he
      rcases List.mem_append.mp he2 with hm | hm
      · exact h4 e hm m
      · exact ih3 e hm m

/-- Witness for `C6_initialize_idempotent`: an active agent session
receiving one further user message. -/
theorem C6_initialize_idempotent_witness :
    (⟨true, ⟨"agent", [Message.system "p"]⟩⟩ : EndpointState).initialized = true
    ∧ ((runEndpoint ⟨true, ⟨"agent", [Message.system "p"]⟩⟩
          [(wStep, ⟨some "user_message", none, some "hi", none, none⟩)]).1.initialized = true
       ∧ countSystem (runEndpoint ⟨true, ⟨"agent", [Message.system "p"]⟩⟩
            [(wStep, ⟨some "user_message", none, some "hi", none, none⟩)]).1.session.messages =
          countSystem (⟨true, ⟨"agent", [Message.system "p"]⟩⟩ : EndpointState).session.messages
       ∧ ∀ e ∈ (runEndpoint ⟨true, ⟨"agent", [Message.system "p"]⟩⟩
            [(wStep, ⟨some "user_message", none, some "hi", none, none⟩)]).2.1, ∀ m,
          e ≠ Event.thought none (sessionStartMsg m)) :=
  ⟨rfl, C6_initialize_idempotent
    [(wStep, ⟨some "user_message", none, some "hi", none, none⟩)]
    ⟨true, ⟨"agent", [Message.system "p"]⟩⟩ rfl⟩

/-! ## Default mode and the all-tools allowlist (claim C9) -/

theorem stepEndpoint_requests_agent (ctx : StepCtx) (st : EndpointState) (msg : Inbound)
    (hinit : st.initialized = true) (hmode : st.session.mode = "agent") :
    ∀ r ∈ (stepEndpoint ctx st msg).2.2, r = some TOOL_DEFINITIONS := by
  by_cases hgfc : (msg.type == some "get_file_content") = true
  · rw [stepEndpoint_getfc ctx st msg hgfc]
    intro r hr
    exact absurd hr (List.not_mem_nil r)
  · have hgfc' : (msg.type == some "get_file_content") = false := by
      revert hgfc; cases msg.type == some "get_file_content" <;> simp
    by_cases hum : (msg.type == some "user_message") = true
    · rw [stepEndpoint_user ctx st msg hinit hgfc' hum]
      intro r hr
      rw [hmode] at hr
      exact handle_message_requests_agent _ _ _ _ r hr
    · have hum' : (msg.type == some "user_message") = false := by
        revert hum; cases msg.type == some "user_message" <;> simp
      rw [stepEndpoint_ignored ctx st msg hinit hgfc' hum']
      intro r hr
      exact absurd hr (List.not_mem_nil r)

theorem runEndpoint_requests_agent :
    ∀ (msgs : List (StepCtx × Inbound)) (st : EndpointState),
      st.initialized = true → st.session.mode = "agent" →
      ∀ r ∈ (runEndpoint st msgs).2.2, r = some TOOL_DEFINITIONS := by
  intro msgs
  induction msgs with
  | nil =>
    intro st _ _ r hr
    exact absurd hr (List.not_mem_nil r)
  | cons p rest ih =>
    intro st hinit hmode r hr
    obtain ⟨h1, h2, _, _⟩ := stepEndpoint_initialized p.1 st p.2 hinit
    have hr2 : r ∈ (stepEndpoint p.1 st p.2).2.2 ++
        (runEndpoint (stepEndpoint p.1 st p.2).1 rest).2.2 := hr
    rcases List.mem_append.mp hr2 with hm | hm
    · exact stepEndpoint_requests_agent p.1 st p.2 hinit hmode r hm
    · exact ih (stepEndpoint p.1 st p.2).1 h1 (by rw [h2, hmode]) r hm

theorem stepEndpoint_first_no_mode (ctx : StepCtx) (msg : Inbound)
    (hm1 : (msg.type == some "get_file_content") = false) (hmode : msg.mode = none) :
    stepEndpoint ctx initialEndpointState msg =
      (if wantsFirstTurn msg = true then
        (⟨true, ⟨"agent", (handle_message ⟨ctx.env, ctx.jloads, ctx.llm, ctx.tid⟩ "agent"
            [Message.system (PROMPT_AGENT ctx.structureText)] (msg.content.getD "")
            (some (msg.images.getD []))).messages⟩⟩,
         [Event.thought none (sessionStartMsg "agent")] ++
           (handle_message ⟨ctx.env, ctx.jloads, ctx.llm, ctx.tid⟩ "agent"
            [Message.system (PROMPT_AGENT ctx.structureText)] (msg.content.getD "")
            (some (msg.images.getD []))).events,
         (handle_message ⟨ctx.env, ctx.jloads, ctx.llm, ctx.tid⟩ "agent"
            [Message.system (PROMPT_AGENT ctx.structureText)] (msg.content.getD "")
            (some (msg.images.getD []))).requests)
      else (⟨true, ⟨"agent", [Message.system (PROMPT_AGENT ctx.structureText)]⟩⟩,
        [Event.thought none (sessionStartMsg "agent")], [])) := by
  unfold stepEndpoint
  rw [hm1, hmode]
  rfl

/-- C9, counterexample.  The claim quantifies over ANY first inbound
payload without a `mode` field.  A first payload of type
`get_file_content` has no `mode` field, yet it bypasses initialization
entirely (`continue`), so a second payload may still initialize the session
in `"chat"` mode — the session is then never in `"agent"` mode. -/
theorem C9_counterexample :
    (⟨some "get_file_content", none, none, none, some "p"⟩ : Inbound).mode = none
    ∧ (runEndpoint initialEndpointState
        [(wStep, ⟨some "get_file_content", none, none, none, some "p"⟩),
         (wStep, ⟨none, some "chat", none, none, none⟩)]).1.initialized = true
    ∧ (runEndpoint initialEndpointState
        [(wStep, ⟨some "get_file_content", none, none, none, some "p"⟩),
         (wStep, ⟨none, some "chat", none, none, none⟩)]).1.session.mode = "chat" := by
  refine ⟨rfl, by decide, by decide⟩

/-- C9, amended: if the first inbound payload is not an out-of-band
`get_file_content` request and carries no `mode` field, the session is
initialized in `"agent"` mode (`message.get("mode", "agent")`), and every
completion request issued in that step and in the entire rest of the
connection advertises all four tools. -/
theorem C9_default_mode_agent (ctx : StepCtx) (msg : Inbound)
    (rest : List (StepCtx × Inbound))
    (htype : msg.type ≠ some "get_file_content") (hmode : msg.mode = none) :
    TOOL_DEFINITIONS.map ToolDef.name =
      ["read_file", "write_file", "run_terminal_command", "web_search"]
    ∧ (stepEndpoint ctx initialEndpointState msg).1.initialized = true
    ∧ (stepEndpoint ctx initialEndpointState msg).1.session.mode = "agent"
    ∧ (∀ r ∈ (stepEndpoint ctx initialEndpointState msg).2.2, r = some TOOL_DEFINITIONS)
    ∧ (∀ r ∈ (runEndpoint (stepEndpoint ctx initialEndpointState msg).1 rest).2.2,
        r = some TOOL_DEFINITIONS) := by
  have hm1 : (msg.type == some "get_file_content") = false := beq_eq_false_iff_ne.mpr htype
  rw [stepEndpoint_first_no_mode ctx msg hm1 hmode]
  by_cases hwf : wantsFirstTurn msg = true
  · rw [if_pos hwf]
    refine ⟨by decide, rfl, rfl, ?_, ?_⟩
    · exact handle_message_requests_agent _ _ _ _
    · exact runEndpoint_requests_agent rest _ rfl rfl
  · rw [if_neg hwf]
    refine ⟨by decide, rfl, rfl, ?_, ?_⟩
    · intro r hr
      exact absurd hr (List.not_mem_nil r)
    · exact runEndpoint_requests_agent rest _ rfl rfl

/-- Witness for `C9_default_mode_agent`: an empty first payload (no type,
no mode, no content) over the concrete context `wStep`, with no further
payloads. -/
theorem C9_default_mode_agent_witness :
    ((⟨none, none, none, none, none⟩ : Inbound).type ≠ some "get_file_content")
    ∧ ((⟨none, none, none, none, none⟩ : Inbound).mode = none)
    ∧ (TOOL_DEFINITIONS.map ToolDef.name =
        ["read_file", "write_file", "run_terminal_command", "web_search"]
      ∧ (stepEndpoint wStep initialEndpointState ⟨none, none, none, none, none⟩).1.initialized
          = true
      ∧ (stepEndpoint wStep initialEndpointState ⟨none, none, none, none, none⟩).1.session.mode
          = "agent"
      ∧ (∀ r ∈ (stepEndpoint wStep initialEndpointState ⟨none, none, none, none, none⟩).2.2,
          r = some TOOL_DEFINITIONS)
      ∧ (∀ r ∈ (runEndpoint
            (stepEndpoint wStep initialEndpointState ⟨none, none, none, none, none⟩).1 []).2.2,
          r = some TOOL_DEFINITIONS)) :=
  ⟨by decide, rfl,
   C9_default_mode_agent wStep ⟨none, none, none, none, none⟩ [] (by decide) rfl⟩

/-! ## The file tools over the filesystem model (claims C8, C10) -/

theorem mem_contains_true {a : String} {l : List String} (h : a ∈ l) :
    l.contains a = true :=
  List.elem_iff.mpr h

theorem contains_false_of_not_mem {a : String} {l : List String} (h : a ∉ l) :
    l.contains a = false := by
  cases hb : l.contains a with
  | false => rfl
  | true => exact absurd (List.elem_iff.mp hb) h

set_option maxRecDepth 8192 in
/-- C10: for any path with no directory component (`os.path.dirname` gives
`""`, e.g. `"c.txt"`), `write_file` fails: `os.makedirs("")` raises
`FileNotFoundError` even with `exist_ok=True`, the handler converts it to
the error string — a string beginning with `"Error writing file:"` — and
the filesystem is untouched: the file is never created or modified. -/
theorem C10_write_empty_dirname_fails (fs : FS) (path content : String)
    (h : pyDirname path = "") :
    (write_file fs path content).1 =
      "Error writing file: [Errno 2] No such file or directory: " ++ squo ++ squo
    ∧ (∃ suffix, (write_file fs path content).1 = "Error writing file:" ++ suffix)
    ∧ (write_file fs path content).2 = fs := by
  have hmk : makedirs fs (pyDirname path) = Except.error
      ("[Errno 2] No such file or directory: " ++ squo ++ squo) := by
    rw [h]
    unfold makedirs
    rw [if_pos rfl]
  have hw : write_file fs path content =
      ("Error writing file: " ++ ("[Errno 2] No such file or directory: " ++ squo ++ squo),
       fs) := by
    unfold write_file
    simp only [hmk]
  rw [hw]
  refine ⟨?_, ?_, rfl⟩
  · show "Error writing file: " ++ ("[Errno 2] No such file or directory: " ++ squo ++ squo) =
      "Error writing file: [Errno 2] No such file or directory: " ++ squo ++ squo
    decide
  · refine ⟨" [Errno 2] No such file or directory: " ++ squo ++ squo, ?_⟩
    show "Error writing file: " ++ ("[Errno 2] No such file or directory: " ++ squo ++ squo) =
      "Error writing file:" ++ (" [Errno 2] No such file or directory: " ++ squo ++ squo)
    decide

/-- Witness for `C10_write_empty_dirname_fails` at `path = "c.txt"` on the
empty filesystem. -/
theorem C10_write_empty_dirname_fails_witness :
    pyDirname "c.txt" = ""
    ∧ ((write_file ⟨[], []⟩ "c.txt" "X").1 =
        "Error writing file: [Errno 2] No such file or directory: " ++ squo ++ squo
       ∧ (∃ suffix, (write_file ⟨[], []⟩ "c.txt" "X").1 = "Error writing file:" ++ suffix)
       ∧ (write_file ⟨[], []⟩ "c.txt" "X").2 = ⟨[], []⟩) :=
  ⟨by decide, C10_write_empty_dirname_fails ⟨[], []⟩ "c.txt" "X" (by decide)⟩

/-- C8: `write_file("a/b/c.txt", content)` on a filesystem where `a` and
`a/b` are not regular files and `a/b/c.txt` is not a directory succeeds,
creates the intermediate directories `a` and `a/b` if absent, and a
subsequent `read_file("a/b/c.txt")` returns exactly the written content. -/
theorem C8_write_read_roundtrip (fs : FS) (content : String)
    (hfa : isFile fs "a" = false) (hfb : isFile fs "a/b" = false)
    (hdir : fs.dirs.contains "a/b/c.txt" = false) :
    (write_file fs "a/b/c.txt" content).1 = "Successfully wrote to a/b/c.txt"
    ∧ read_file (write_file fs "a/b/c.txt" content).2 "a/b/c.txt" = content
    ∧ (write_file fs "a/b/c.txt" content).2.dirs.contains "a" = true
    ∧ (write_file fs "a/b/c.txt" content).2.dirs.contains "a/b" = true := by
  have hanc : ancestorDirs "a/b" = ["a", "a/b"] := by decide
  have hmk : makedirs fs "a/b" = Except.ok
      { fs with dirs := fs.dirs ++
          (ancestorDirs "a/b").filter (fun a => !fs.dirs.contains a) } := by
    unfold makedirs
    rw [if_neg (by decide), if_neg ?hany]
    case hany =>
      rw [hanc]
      simp [List.any_cons, List.any_nil, hfa, hfb]
  have hc1 : ({ fs with dirs := fs.dirs ++
      (ancestorDirs "a/b").filter (fun a => !fs.dirs.contains a) } : FS).dirs.contains
        "a/b/c.txt" = false := by
    apply contains_false_of_not_mem
    intro hmem
    rcases List.mem_append.mp hmem with hm | hm
    · rw [mem_contains_true hm] at hdir
      exact Bool.noConfusion hdir
    · have h2 := (List.mem_filter.mp hm).1
      rw [hanc] at h2
      simp at h2
  have hw : write_file fs "a/b/c.txt" content =
      ("Successfully wrote to a/b/c.txt",
       setFile { fs with dirs := fs.dirs ++
          (ancestorDirs "a/b").filter (fun a => !fs.dirs.contains a) } "a/b/c.txt" content) := by
    unfold write_file
    rw [show pyDirname "a/b/c.txt" = "a/b" from by decide]
    simp only [hmk]
    rw [if_neg (fun hcontra => by rw [hc1] at hcontra; exact Bool.noConfusion hcontra)]
    have hstr : ("Successfully wrote to " ++ "a/b/c.txt") = "Successfully wrote to a/b/c.txt" := by
      decide
    rw [hstr]
  refine ⟨by rw [hw], ?_, ?_, ?_⟩
  · rw [hw]
    show read_file (setFile _ "a/b/c.txt" content) "a/b/c.txt" = content
    unfold read_file lookupFile setFile
    rw [@List.find?_cons_of_pos _ (fun kv => kv.1 == "a/b/c.txt") ("a/b/c.txt", content) _
      (by simp)]
  · rw [hw]
    show (fs.dirs ++ (ancestorDirs "a/b").filter (fun a => !fs.dirs.contains a)).contains "a"
      = true
    apply mem_contains_true
    by_cases hins : "a" ∈ fs.dirs
    · exact List.mem_append_left _ hins
    · refine List.mem_append_right _ (List.mem_filter.mpr ⟨?_, ?_⟩)
      · rw [hanc]; simp
      · show (!fs.dirs.contains "a") = true
        rw [contains_false_of_not_mem hins]
        rfl
  · rw [hw]
    show (fs.dirs ++ (ancestorDirs "a/b").filter (fun a => !fs.dirs.contains a)).contains "a/b"
      = true
    apply mem_contains_true
    by_cases hins : "a/b" ∈ fs.dirs
    · exact List.mem_append_left _ hins
    · refine List.mem_append_right _ (List.mem_filter.mpr ⟨?_, ?_⟩)
      · rw [hanc]; simp
      · show (!fs.dirs.contains "a/b") = true
        rw [contains_false_of_not_mem hins]
        rfl

/-- Witness for `C8_write_read_roundtrip`: writing `"X"` on the empty
filesystem. -/
theorem C8_write_read_roundtrip_witness :
    isFile ⟨[], []⟩ "a" = false ∧ isFile ⟨[], []⟩ "a/b" = false
    ∧ (⟨[], []⟩ : FS).dirs.contains "a/b/c.txt" = false
    ∧ ((write_file ⟨[], []⟩ "a/b/c.txt" "X").1 = "Successfully wrote to a/b/c.txt"
       ∧ read_file (write_file ⟨[], []⟩ "a/b/c.txt" "X").2 "a/b/c.txt" = "X"
       ∧ (write_file ⟨[], []⟩ "a/b/c.txt" "X").2.dirs.contains "a" = true
       ∧ (write_file ⟨[], []⟩ "a/b/c.txt" "X").2.dirs.contains "a/b" = true) :=
  ⟨rfl, rfl, rfl, C8_write_read_roundtrip ⟨[], []⟩ "X" rfl rfl rfl⟩
